import Mathlib

/-!
# pixgo: frame buffer, glyph drawing and push protocol of the Pixoo client

A shallow embedding of `client.go`.

* A Go `int` is a 64-bit two's complement integer. It is modelled by an `Int`;
  every sum and product that the source computes on coordinates, sizes and
  indices is reduced by `wrap` to the range `-2^63 .. 2^63-1`. The narrowing
  conversion `byte(v)` is the residue modulo `2^8`. The counter `reqCounter`
  starts at 1 and grows by one per `Push`; its increment is not reduced, since
  `2^63` pushes are out of reach of any run.
* A slice `[]int` is modelled by a `List Int`. A Go slice has fewer than `2^63`
  entries; statements about index arithmetic carry this as a hypothesis on the
  list. Whether `make` obtains the memory it asks for depends on the machine:
  the longest slice it can allocate is the parameter `maxLen` of `NewClient`.
* A method with a pointer receiver becomes a function that takes the client and
  returns the client it leaves behind, together with what the call returned.
  An indexed store outside `0 .. len-1` is a runtime panic in Go; the embedding
  records it as `Outcome.panicked` and keeps the client as it was at that moment
  (stores that were executed before the panic stay visible).
* The glyph table `chars` (a `map[rune][]int` declared in another file of the
  package) is a parameter of `DrawCharacter`.
* `json.Marshal` and `http.Post` are library calls into the outside world; what
  they did on a given request is the parameter `Wire` of `doRequest`.
* `base64.StdEncoding` is the standard library's RFC 4648 encoding with the
  standard alphabet and `=` padding.
-/

namespace Pixgo

/-! ## Data model -/

/-- A Go `rune` (an `int32` code point). -/
abbrev rune := Int

/-- The glyph table `chars`: the bitmap of a character, when it has one. -/
abbrev Glyphs := rune → Option (List Int)

/-- The struct `Client` of `client.go`. -/
structure Client where
  Address : String
  Size : Int
  buffer : List Int
  reqCounter : Int
  deriving DecidableEq, Repr

/-- What a call did: it returned normally (a nil error for the methods that
return one), it returned a non-nil error, or it stopped in a runtime panic. -/
inductive Outcome where
  | nil
  | error (msg : String)
  | panicked
  deriving DecidableEq, Repr

/-- A value stored in a request body (`interface{}` holding an int or a string). -/
inductive Value where
  | int (n : Int)
  | str (s : String)
  deriving DecidableEq, Repr

/-- A request body, `map[string]interface{}`, as the list of its entries in the
order of the map literal. -/
abbrev Body := List (String × Value)

/-- The value stored under a key of a request body. -/
def Body.field (body : Body) (key : String) : Option Value :=
  (body.find? (fun kv => kv.1 == key)).map Prod.snd

/-- What the two library calls of `doRequest` did on one request. -/
inductive Wire where
  | delivered
  | marshalError (e : String)
  | postError (e : String)
  deriving DecidableEq, Repr

/-! ## Construction and addressing -/

/-- The value of a Go `int` computation whose exact result is `z`: the
representative of `z` modulo `2^64` in `-2^63 .. 2^63-1`. -/
def wrap (z : Int) : Int :=
  (z + 9223372036854775808) % 18446744073709551616 - 9223372036854775808

/-- The builtin `make([]int, n)`: a zeroed slice of `n` entries. `none` is the
runtime panic for a negative length or for a length that cannot be allocated
(more than `maxLen` entries). -/
def make (maxLen : Nat) (n : Int) : Option (List Int) :=
  if 0 ≤ n ∧ n ≤ (maxLen : Int) then some (List.replicate n.toNat 0) else none

/-- The constructor `NewClient`: the buffer is `make([]int, size*size*3)`; when
`make` panics no client is returned. -/
def NewClient (maxLen : Nat) (address : String) (size : Int) : Option Client :=
  match make maxLen (wrap (wrap (size * size) * 3)) with
  | none => none
  | some buf =>
    some { Address := address
           Size := size
           buffer := buf
           reqCounter := 1 }

/-- The method `doRequest`: marshal the body, post it, wrap whichever error comes first. -/
def doRequest (w : Wire) (_c : Client) (_body : Body) : Outcome :=
  match w with
  | Wire.marshalError e => Outcome.error ("failed to marshal request body: " ++ e)
  | Wire.postError e => Outcome.error ("error making request to Pixoo: " ++ e)
  | Wire.delivered => Outcome.nil

/-- The method `PixelCount`: the number of pixels in the display. -/
def PixelCount (c : Client) : Int :=
  wrap (c.Size * c.Size)

/-- The method `GetIndex`: the starting index of the pixel in the buffer. -/
def GetIndex (c : Client) (x y : Int) : Int :=
  wrap (wrap (x + wrap (y * c.Size)) * 3)

/-! ## Buffer writes -/

/-- The indexed store `s[i] = v`: `none` is the runtime panic for an index
outside `0 .. len(s)-1`. -/
def store (s : List Int) (i v : Int) : Option (List Int) :=
  if 0 ≤ i ∧ i < (s.length : Int) then some (s.set i.toNat v) else none

/-- The method `SetPixel`: three stores at `index`, `index+1`, `index+2`, in this order. -/
def SetPixel (c : Client) (x y red green blue : Int) : Client × Outcome :=
  let index := GetIndex c x y
  match store c.buffer index red with
  | none => (c, Outcome.panicked)
  | some b1 =>
    match store b1 (wrap (index + 1)) green with
    | none => ({ c with buffer := b1 }, Outcome.panicked)
    | some b2 =>
      match store b2 (wrap (index + 2)) blue with
      | none => ({ c with buffer := b2 }, Outcome.panicked)
      | some b3 => ({ c with buffer := b3 }, Outcome.nil)

/-- A `for` loop over the items of a list: the body runs on each item in turn
and the loop stops at the first iteration that does not end normally. -/
def forEach {α : Type} (body : α → Client → Client × Outcome) :
    List α → Client → Client × Outcome
  | [], c => (c, Outcome.nil)
  | a :: rest, c =>
    match body a c with
    | (c1, Outcome.nil) => forEach body rest c1
    | (c1, o) => (c1, o)

/-- The values `0, 1, .., n-1` taken by a loop variable `for v := 0; v < n; v++`. -/
def upTo (n : Int) : List Int :=
  (List.range n.toNat).map Int.ofNat

/-- The method `Fill`: for each `x` below `Size`, for each `y` below `Size`, `SetPixel`.
`SetPixel` never changes `Size`, so each loop bound is read when its loop starts. -/
def Fill (c : Client) (red green blue : Int) : Client × Outcome :=
  forEach (fun x c1 =>
    forEach (fun y c2 => SetPixel c2 x y red green blue) (upTo c1.Size) c1) (upTo c.Size) c

/-- The body of the loop of `DrawCharacter` for the cell `v` at position `i`. -/
def drawCell (x y red green blue : Int) (cell : Nat × Int) (c : Client) : Client × Outcome :=
  if cell.2 = 1 then
    let localX : Int := ((cell.1 % 3 : Nat) : Int)
    let localY : Int := ((cell.1 / 3 : Nat) : Int)
    SetPixel c (wrap (x + localX)) (wrap (y + localY)) red green blue
  else (c, Outcome.nil)

/-- The method `DrawCharacter`: look the character up, then set the pixel of each cell
that holds 1. -/
def DrawCharacter (chars : Glyphs) (c : Client) (char : rune) (x y red green blue : Int) :
    Client × Outcome :=
  match chars char with
  | none => (c, Outcome.error "unrecognized character")
  | some charData => forEach (drawCell x y red green blue) charData.enum c

/-! ## Base64 (`base64.StdEncoding`) -/

/-- The standard alphabet `encodeStd`. -/
def encodeStd : List Char :=
  "ABCDEFGHIJKLMNOPQRSTUVWXYZabcdefghijklmnopqrstuvwxyz0123456789+/".toList

/-- The character of a 6-bit value. -/
def sextetChar (n : Nat) : Char :=
  encodeStd.getD n 'A'

/-- The 6-bit value of a character of the alphabet. -/
def charSextet (ch : Char) : Option Nat :=
  let i := encodeStd.indexOf ch
  if i < 64 then some i else none

/-- Three bytes become four characters; a last group of one or two bytes is
padded with `=`. -/
def encodeChars : List Nat → List Char
  | [] => []
  | [a] => [sextetChar (a / 4), sextetChar (a % 4 * 16), '=', '=']
  | [a, b] => [sextetChar (a / 4), sextetChar (a % 4 * 16 + b / 16), sextetChar (b % 16 * 4), '=']
  | a :: b :: c :: rest =>
    sextetChar (a / 4) :: sextetChar (a % 4 * 16 + b / 16) ::
      sextetChar (b % 16 * 4 + c / 64) :: sextetChar (c % 64) :: encodeChars rest

/-- The library function `base64.StdEncoding.EncodeToString`. -/
def EncodeToString (src : List Nat) : String :=
  String.mk (encodeChars src)

/-- Four characters become three bytes; padding is accepted in the last group
only. `none` is a decoding error. The input is taken without line breaks, as
the encoder produces it. -/
def decodeChars : List Char → Option (List Nat)
  | [] => some []
  | c0 :: c1 :: c2 :: c3 :: rest =>
    if c3 = '=' then
      if rest = [] then
        if c2 = '=' then
          match charSextet c0, charSextet c1 with
          | some s0, some s1 => some [s0 * 4 + s1 / 16]
          | _, _ => none
        else
          match charSextet c0, charSextet c1, charSextet c2 with
          | some s0, some s1, some s2 => some [s0 * 4 + s1 / 16, s1 % 16 * 16 + s2 / 4]
          | _, _, _ => none
      else none
    else
      match charSextet c0, charSextet c1, charSextet c2, charSextet c3, decodeChars rest with
      | some s0, some s1, some s2, some s3, some tail =>
        some ((s0 * 4 + s1 / 16) :: (s1 % 16 * 16 + s2 / 4) :: (s2 % 4 * 64 + s3) :: tail)
      | _, _, _, _, _ => none
  | _ => none

/-- The library function `base64.StdEncoding.DecodeString`. -/
def DecodeString (s : String) : Option (List Nat) :=
  decodeChars s.data

/-! ## Push and the device commands -/

/-- The conversion `byte(v)` of an `int`: its low eight bits. -/
def byte (v : Int) : Nat :=
  (v % 256).toNat

/-- The method `Push`: narrow the buffer to bytes, encode it, build the request body,
advance the counter, hand the body to `doRequest`. The result holds the client
after the call, the body that was handed over, and what `Push` returned. -/
def Push (w : Wire) (c : Client) : Client × Body × Outcome :=
  let byteArray := c.buffer.map byte
  let encoded := EncodeToString byteArray
  let reqBody : Body :=
    [ ("Command", Value.str "Draw/SendHttpGif"),
      ("PicNum", Value.int 1),
      ("PicWidth", Value.int c.Size),
      ("PicOffset", Value.int 0),
      ("PicID", Value.int c.reqCounter),
      ("PicSpeed", Value.int 1000),
      ("PicData", Value.str encoded) ]
  let c1 := { c with reqCounter := c.reqCounter + 1 }
  (c1, reqBody, doRequest w c1 reqBody)

/-- The method `SetBrightness`: changes the brightness of the display. -/
def SetBrightness (w : Wire) (c : Client) (brightness : Int) : Client × Body × Outcome :=
  let reqBody : Body :=
    [ ("Command", Value.str "Channel/SetBrightness"),
      ("Brightness", Value.int brightness) ]
  (c, reqBody, doRequest w c reqBody)

/-- The method `SetPowerStatus`: true for on, false for off. -/
def SetPowerStatus (w : Wire) (c : Client) (status : Bool) : Client × Body × Outcome :=
  let statusInt : Int := if status then 1 else 0
  let reqBody : Body :=
    [ ("Command", Value.str "Channel/OnOffScreen"),
      ("OnOff", Value.int statusInt) ]
  (c, reqBody, doRequest w c reqBody)

/-- The method `TurnOn`: shorthand for `SetPowerStatus(true)`. -/
def TurnOn (w : Wire) (c : Client) : Client × Body × Outcome :=
  SetPowerStatus w c true

/-- The method `TurnOff`: shorthand for `SetPowerStatus(false)`. -/
def TurnOff (w : Wire) (c : Client) : Client × Body × Outcome :=
  SetPowerStatus w c false

/-- The method `Reset`: sends `Draw/ResetHttpGifId`. -/
def Reset (w : Wire) (c : Client) : Client × Body × Outcome :=
  let reqBody : Body := [ ("Command", Value.str "Draw/ResetHttpGifId") ]
  (c, reqBody, doRequest w c reqBody)

/-! ## Programs that use a client -/

/-- One call on a client. A call that talks to the device carries what the
library calls did on its request. -/
inductive Op where
  | setPixel (x y red green blue : Int)
  | fill (red green blue : Int)
  | drawCharacter (char : rune) (x y red green blue : Int)
  | push (w : Wire)
  | setBrightness (brightness : Int) (w : Wire)
  | setPowerStatus (status : Bool) (w : Wire)
  | turnOn (w : Wire)
  | turnOff (w : Wire)
  | reset (w : Wire)
  deriving DecidableEq, Repr

/-- The client after one call. A caller that recovers from a panic goes on with
the client as the panic left it. -/
def step (chars : Glyphs) (c : Client) : Op → Client
  | Op.setPixel x y r g b => (SetPixel c x y r g b).1
  | Op.fill r g b => (Fill c r g b).1
  | Op.drawCharacter ch x y r g b => (DrawCharacter chars c ch x y r g b).1
  | Op.push w => (Push w c).1
  | Op.setBrightness n w => (SetBrightness w c n).1
  | Op.setPowerStatus s w => (SetPowerStatus w c s).1
  | Op.turnOn w => (TurnOn w c).1
  | Op.turnOff w => (TurnOff w c).1
  | Op.reset w => (Reset w c).1

/-- The client after a sequence of calls. -/
def run (chars : Glyphs) (c : Client) (ops : List Op) : Client :=
  ops.foldl (step chars) c

/-- The request bodies built by the `Push` calls of a sequence of calls, in
the order of the calls. -/
def pushed (chars : Glyphs) : Client → List Op → List Body
  | _, [] => []
  | c, Op.push w :: rest => (Push w c).2.1 :: pushed chars (step chars c (Op.push w)) rest
  | c, op :: rest => pushed chars (step chars c op) rest

/-- Whether a call is a `Push`. -/
def Op.isPush : Op → Bool
  | Op.push _ => true
  | _ => false

/-- A small glyph table for examples: the digit `1` on three columns. -/
def demoChars : Glyphs := fun ch =>
  if ch = 49 then some [0, 1, 0, 1, 1, 0, 0, 1, 0, 0, 1, 0, 1, 1, 1] else none

/-- The client that `NewClient("10.0.0.5", 2)` returns. -/
def display2 : Client :=
  Client.mk "10.0.0.5" 2 (List.replicate 12 0) 1

/-- The client that `NewClient("10.0.0.5", 3)` returns. -/
def display3 : Client :=
  Client.mk "10.0.0.5" 3 (List.replicate 27 0) 1

/-- The client that `NewClient("10.0.0.5", 5)` returns. -/
def display5 : Client :=
  Client.mk "10.0.0.5" 5 (List.replicate 75 0) 1

/-! ## Vocabulary of the statements -/

/-- The colour channel written at offset `m` of a pixel: red, green, blue. -/
def channel (r g b : Int) (m : Nat) : Int :=
  if m = 0 then r else if m = 1 then g else b

/-- The indexed read `s[i]`: `none` outside `0 .. len(s)-1`. -/
def load (s : List Int) (i : Int) : Option Int :=
  if 0 ≤ i then s[i.toNat]? else none

/-- The three buffer entries at `GetIndex(x,y)`, `+1`, `+2`, when all three exist. -/
def readPixel (c : Client) (x y : Int) : Option (Int × Int × Int) :=
  let index := GetIndex c x y
  match load c.buffer index, load c.buffer (index + 1), load c.buffer (index + 2) with
  | some r, some g, some b => some (r, g, b)
  | _, _, _ => none

/-- The client `c1` is `c` with the pixels whose row-major index satisfies `P`
set to the colour `(r, g, b)`: every buffer entry of such a pixel holds its
channel of the colour, every other entry and every other field is as in `c`. -/
def Paints (c c1 : Client) (r g b : Int) (P : Nat → Prop) : Prop :=
  c1.Address = c.Address ∧ c1.Size = c.Size ∧ c1.reqCounter = c.reqCounter ∧
  c1.buffer.length = c.buffer.length ∧
  ∀ j : Nat, j < c.buffer.length →
    (P (j / 3) → c1.buffer[j]? = some (channel r g b (j % 3))) ∧
    (¬ P (j / 3) → c1.buffer[j]? = c.buffer[j]?)

/-! ## Addressing: helper lemmas -/

theorem wrap_of_range (z : Int) (h0 : -2 ^ 63 ≤ z) (h1 : z < 2 ^ 63) : wrap z = z := by
  unfold wrap
  omega

theorem wrap_range (z : Int) : -2 ^ 63 ≤ wrap z ∧ wrap z < 2 ^ 63 := by
  unfold wrap
  omega

theorem GetIndex_wrap (c : Client) (x y : Int) :
    GetIndex c x y = wrap ((x + y * c.Size) * 3) := by
  unfold GetIndex wrap
  omega

theorem GetIndex_eq (c : Client) (x y : Int)
    (h0 : -2 ^ 63 ≤ (x + y * c.Size) * 3) (h1 : (x + y * c.Size) * 3 < 2 ^ 63) :
    GetIndex c x y = (x + y * c.Size) * 3 := by
  rw [GetIndex_wrap, wrap_of_range _ h0 h1]

theorem GetIndex_congr_Size (c c1 : Client) (x y : Int) (h : c1.Size = c.Size) :
    GetIndex c1 x y = GetIndex c x y := by
  simp only [GetIndex, h]

theorem GetIndex_wrap_x (c : Client) (x y : Int) :
    GetIndex c (wrap x) y = GetIndex c x y := by
  unfold GetIndex wrap
  omega

theorem GetIndex_wrap_y (c : Client) (x y : Int) :
    GetIndex c x (wrap y) = GetIndex c x y := by
  rw [GetIndex_wrap, GetIndex_wrap]
  obtain ⟨q, hq⟩ : ∃ q : Int, wrap y = y + q * 18446744073709551616 := by
    unfold wrap
    exact ⟨-((y + 9223372036854775808) / 18446744073709551616), by omega⟩
  have hmul : wrap y * c.Size = y * c.Size + (q * c.Size) * 18446744073709551616 := by
    rw [hq]; ring
  rw [hmul]
  generalize q * c.Size = t
  unfold wrap
  omega

theorem pixel_index_bounds (S x y : Int) (hx0 : 0 ≤ x) (hx : x < S) (hy0 : 0 ≤ y) (hy : y < S) :
    0 ≤ x + y * S ∧ x + y * S < S * S := by
  have h1 : 0 ≤ y * S := mul_nonneg hy0 (by omega)
  have h2 : y * S ≤ (S - 1) * S := mul_le_mul_of_nonneg_right (by omega) (by omega)
  constructor
  · omega
  · nlinarith

theorem pixel_index_inj (S x1 y1 x2 y2 : Int)
    (hx1 : 0 ≤ x1) (hx1S : x1 < S) (hx2 : 0 ≤ x2) (hx2S : x2 < S)
    (h : x1 + y1 * S = x2 + y2 * S) : x1 = x2 ∧ y1 = y2 := by
  have hy : y1 = y2 := by
    rcases lt_trichotomy y1 y2 with hlt | heq | hgt
    · exfalso
      have : S ≤ (y2 - y1) * S := le_mul_of_one_le_left (by omega) (by omega)
      nlinarith
    · exact heq
    · exfalso
      have : S ≤ (y1 - y2) * S := le_mul_of_one_le_left (by omega) (by omega)
      nlinarith
  subst hy
  exact ⟨by omega, rfl⟩

theorem GetIndex_valid (c : Client) (x y : Int) (hfit : 3 * c.Size * c.Size < 2 ^ 63)
    (hx0 : 0 ≤ x) (hx : x < c.Size) (hy0 : 0 ≤ y) (hy : y < c.Size) :
    GetIndex c x y = (x + y * c.Size) * 3 := by
  have h := pixel_index_bounds c.Size x y hx0 hx hy0 hy
  have h3 : 3 * c.Size * c.Size = 3 * (c.Size * c.Size) := by ring
  exact GetIndex_eq c x y (by omega) (by omega)

theorem GetIndex_range (c : Client) (x y : Int) (hfit : 3 * c.Size * c.Size < 2 ^ 63)
    (hx0 : 0 ≤ x) (hx : x < c.Size) (hy0 : 0 ≤ y) (hy : y < c.Size) :
    0 ≤ GetIndex c x y ∧ GetIndex c x y + 2 < 3 * c.Size * c.Size := by
  have h := pixel_index_bounds c.Size x y hx0 hx hy0 hy
  rw [GetIndex_valid c x y hfit hx0 hx hy0 hy]
  constructor
  · omega
  · have : 3 * c.Size * c.Size = 3 * (c.Size * c.Size) := by ring
    omega

/-! ## Addressing: the claims -/

/-- C8 as amended: for all integers `GetIndex(x, y)` is `(x + y*Size) * 3`
reduced to the 64-bit range, hence equal to `(x + y*Size) * 3` whenever this
value lies in `-2^63 .. 2^63-1`. When `3*Size*Size < 2^63` (as for every client
whose buffer has length `3*Size*Size`), for valid coordinates it is three times
the row-major pixel index `k = x + y*Size`, with `0 <= k < Size*Size`, so that
`0 <= GetIndex` and `GetIndex + 2 < 3*Size*Size`. -/
theorem GetIndex_row_major (c : Client) (x y : Int) :
    GetIndex c x y = wrap ((x + y * c.Size) * 3) ∧
    (-2 ^ 63 ≤ (x + y * c.Size) * 3 ∧ (x + y * c.Size) * 3 < 2 ^ 63 →
      GetIndex c x y = (x + y * c.Size) * 3) ∧
    (3 * c.Size * c.Size < 2 ^ 63 → 0 ≤ x ∧ x < c.Size ∧ 0 ≤ y ∧ y < c.Size →
      GetIndex c x y = 3 * (x + y * c.Size) ∧ GetIndex c x y % 3 = 0 ∧
      0 ≤ x + y * c.Size ∧ x + y * c.Size < c.Size * c.Size ∧
      0 ≤ GetIndex c x y ∧ GetIndex c x y + 2 < 3 * c.Size * c.Size) := by
  refine ⟨GetIndex_wrap c x y, fun h => GetIndex_eq c x y h.1 h.2, ?_⟩
  rintro hfit ⟨hx0, hx, hy0, hy⟩
  have h := pixel_index_bounds c.Size x y hx0 hx hy0 hy
  have hr := GetIndex_range c x y hfit hx0 hx hy0 hy
  have he := GetIndex_valid c x y hfit hx0 hx hy0 hy
  refine ⟨by omega, by omega, h.1, h.2, hr.1, hr.2⟩

theorem GetIndex_row_major_witness :
    GetIndex display2 1 1 = (1 + 1 * display2.Size) * 3 ∧
    GetIndex display2 1 1 + 2 < 3 * display2.Size * display2.Size :=
  ⟨(GetIndex_row_major display2 1 1).2.1 ⟨by decide, by decide⟩,
   ((GetIndex_row_major display2 1 1).2.2 (by decide)
      ⟨by decide, by decide, by decide, by decide⟩).2.2.2.2.2⟩

/-- C8 as stated fails: on `Size = 2`, `GetIndex(2^62, 0)` is `-2^62`, not
`(2^62 + 0*2) * 3 = 3 * 2^62`; and on `Size = 2^62` the valid pixel
`(2^62 - 1, 0)` has `GetIndex = -2^62 - 3 < 0`. -/
theorem GetIndex_row_major_counterexample :
    GetIndex display2 4611686018427387904 0 = -4611686018427387904 ∧
    ((4611686018427387904 : Int) + 0 * display2.Size) * 3 = 13835058055282163712 ∧
    GetIndex display2 4611686018427387904 0 ≠
      ((4611686018427387904 : Int) + 0 * display2.Size) * 3 ∧
    ((0 : Int) ≤ 4611686018427387903 ∧ (4611686018427387903 : Int) <
      (Client.mk "10.0.0.5" 4611686018427387904 [] 1).Size) ∧
    ((0 : Int) ≤ 0 ∧ (0 : Int) < (Client.mk "10.0.0.5" 4611686018427387904 [] 1).Size) ∧
    GetIndex (Client.mk "10.0.0.5" 4611686018427387904 [] 1) 4611686018427387903 0 =
      -4611686018427387907 ∧
    ¬ (0 ≤ GetIndex (Client.mk "10.0.0.5" 4611686018427387904 [] 1) 4611686018427387903 0) := by
  decide

/-! ## Buffer writes: helper lemmas -/

theorem store_nat (s : List Int) (n : Nat) (v : Int) (h : n < s.length) :
    store s ((n : Nat) : Int) v = some (s.set n v) := by
  simp [store, h]

theorem Paints.none (c : Client) (r g b : Int) : Paints c c r g b (fun _ => False) :=
  ⟨rfl, rfl, rfl, rfl, fun _ _ => ⟨fun h => h.elim, fun _ => rfl⟩⟩

theorem Paints.trans {c c1 c2 : Client} {r g b : Int} {P Q : Nat → Prop}
    (h1 : Paints c c1 r g b P) (h2 : Paints c1 c2 r g b Q) :
    Paints c c2 r g b (fun k => P k ∨ Q k) := by
  obtain ⟨a1, s1, q1, l1, e1⟩ := h1
  obtain ⟨a2, s2, q2, l2, e2⟩ := h2
  refine ⟨a2.trans a1, s2.trans s1, q2.trans q1, l2.trans l1, ?_⟩
  intro j hj
  have hj1 : j < c1.buffer.length := by omega
  constructor
  · intro h
    by_cases hq : Q (j / 3)
    · exact (e2 j hj1).1 hq
    · rw [(e2 j hj1).2 hq]
      rcases h with hp | hq2
      · exact (e1 j hj).1 hp
      · exact absurd hq2 hq
  · intro h
    rw [(e2 j hj1).2 (fun hq => h (Or.inr hq)), (e1 j hj).2 (fun hp => h (Or.inl hp))]

theorem Paints.congr {c c1 : Client} {r g b : Int} {P Q : Nat → Prop}
    (h : Paints c c1 r g b P) (hPQ : ∀ k, P k ↔ Q k) : Paints c c1 r g b Q := by
  have : P = Q := funext fun k => propext (hPQ k)
  rw [← this]; exact h

theorem SetPixel_at (c : Client) (x y r g b : Int) (k : Nat)
    (hidx : GetIndex c x y = ((3 * k : Nat) : Int)) (hklen : 3 * k + 2 < c.buffer.length)
    (hrep : (c.buffer.length : Int) < 2 ^ 63) :
    SetPixel c x y r g b =
      ({ c with buffer := ((c.buffer.set (3 * k) r).set (3 * k + 1) g).set (3 * k + 2) b },
        Outcome.nil) ∧
    Paints c { c with buffer := ((c.buffer.set (3 * k) r).set (3 * k + 1) g).set (3 * k + 2) b }
      r g b (fun j => j = k) := by
  have i1 : wrap (GetIndex c x y + 1) = ((3 * k + 1 : Nat) : Int) := by
    rw [hidx, wrap_of_range _ (by omega) (by omega)]; omega
  have i2 : wrap (GetIndex c x y + 2) = ((3 * k + 2 : Nat) : Int) := by
    rw [hidx, wrap_of_range _ (by omega) (by omega)]; omega
  refine ⟨?_, ?_⟩
  · simp only [SetPixel]
    rw [i1, i2, hidx, store_nat _ _ _ (by omega)]
    simp only []
    rw [store_nat _ _ _ (by rw [List.length_set]; omega)]
    simp only []
    rw [store_nat _ _ _ (by rw [List.length_set, List.length_set]; omega)]
  · refine ⟨rfl, rfl, rfl, by simp, ?_⟩
    intro j hj
    simp only [List.getElem?_set, List.length_set]
    constructor
    · intro hP
      have hjk : j / 3 = k := hP
      have h3 : j % 3 = 0 ∨ j % 3 = 1 ∨ j % 3 = 2 := by omega
      rcases h3 with h | h | h
      · have : j = 3 * k := by omega
        subst this
        simp [channel, h]
        omega
      · have : j = 3 * k + 1 := by omega
        subst this
        simp [channel]
        omega
      · have : j = 3 * k + 2 := by omega
        subst this
        simp [channel]
        omega
    · intro hP
      have hjk : j / 3 ≠ k := hP
      rw [if_neg (by omega), if_neg (by omega), if_neg (by omega)]

theorem valid_index (c : Client) (x y : Int)
    (hlen : (c.buffer.length : Int) = 3 * c.Size * c.Size)
    (hrep : (c.buffer.length : Int) < 2 ^ 63)
    (hx0 : 0 ≤ x) (hx : x < c.Size) (hy0 : 0 ≤ y) (hy : y < c.Size) :
    ∃ k : Nat, (k : Int) = x + y * c.Size ∧ GetIndex c x y = ((3 * k : Nat) : Int) ∧
      3 * k + 2 < c.buffer.length := by
  have hb := pixel_index_bounds c.Size x y hx0 hx hy0 hy
  have h3 : 3 * c.Size * c.Size = 3 * (c.Size * c.Size) := by ring
  refine ⟨(x + y * c.Size).toNat, by omega, ?_, by omega⟩
  rw [GetIndex_valid c x y (by omega) hx0 hx hy0 hy]
  omega

theorem SetPixel_paints (c : Client) (x y r g b : Int)
    (hlen : (c.buffer.length : Int) = 3 * c.Size * c.Size)
    (hrep : (c.buffer.length : Int) < 2 ^ 63)
    (hx0 : 0 ≤ x) (hx : x < c.Size) (hy0 : 0 ≤ y) (hy : y < c.Size) :
    ∃ c1, SetPixel c x y r g b = (c1, Outcome.nil) ∧
      Paints c c1 r g b (fun k => (k : Int) = x + y * c.Size) := by
  obtain ⟨k, hk, hidx, hklen⟩ := valid_index c x y hlen hrep hx0 hx hy0 hy
  obtain ⟨h1, p⟩ := SetPixel_at c x y r g b k hidx hklen hrep
  refine ⟨_, h1, p.congr ?_⟩
  intro j
  constructor
  · intro h; rw [h]; exact hk
  · intro h; omega

theorem forEach_paints {α : Type} (body : α → Client → Client × Outcome) (r g b : Int)
    (P : α → Nat → Prop) (S : Int) (n : Nat) :
    ∀ (L : List α) (c : Client), c.Size = S → c.buffer.length = n →
      (∀ a ∈ L, ∀ c1 : Client, c1.Size = S → c1.buffer.length = n →
        ∃ c2, body a c1 = (c2, Outcome.nil) ∧ Paints c1 c2 r g b (P a)) →
      ∃ c3, forEach body L c = (c3, Outcome.nil) ∧
        Paints c c3 r g b (fun k => ∃ a ∈ L, P a k) := by
  intro L
  induction L with
  | nil =>
    intro c _ _ _
    exact ⟨c, rfl, (Paints.none c r g b).congr (by simp)⟩
  | cons a rest ih =>
    intro c hS hn hbody
    obtain ⟨c2, h2, p2⟩ := hbody a (List.mem_cons_self a rest) c hS hn
    obtain ⟨c3, h3, p3⟩ := ih c2 (p2.2.1.trans hS) (p2.2.2.2.1.trans hn)
      (fun a1 ha1 => hbody a1 (List.mem_cons_of_mem a ha1))
    refine ⟨c3, ?_, (p2.trans p3).congr (by simp)⟩
    simp only [forEach, h2, h3]

theorem mem_upTo (n v : Int) : v ∈ upTo n ↔ 0 ≤ v ∧ v < n := by
  simp only [upTo, List.mem_map, List.mem_range]
  constructor
  · rintro ⟨k, hk, rfl⟩
    simp only [Int.ofNat_eq_coe]
    omega
  · rintro ⟨h0, h1⟩
    exact ⟨v.toNat, by omega, by simp only [Int.ofNat_eq_coe]; omega⟩

theorem readPixel_valid (c : Client) (x y : Int) (k : Nat)
    (hidx : GetIndex c x y = ((3 * k : Nat) : Int)) :
    readPixel c x y =
      match c.buffer[3 * k]?, c.buffer[3 * k + 1]?, c.buffer[3 * k + 2]? with
      | some r, some g, some b => some (r, g, b)
      | _, _, _ => none := by
  have i1 : GetIndex c x y + 1 = ((3 * k + 1 : Nat) : Int) := by rw [hidx]; omega
  have i2 : GetIndex c x y + 2 = ((3 * k + 2 : Nat) : Int) := by rw [hidx]; omega
  simp only [readPixel, i1, i2, hidx, load, Int.toNat_ofNat, Int.ofNat_zero_le, if_true]
  rfl

theorem Paints.readPixel_painted {c c1 : Client} {r g b : Int} {P : Nat → Prop}
    (h : Paints c c1 r g b P) (x y : Int) (k : Nat)
    (hidx : GetIndex c x y = ((3 * k : Nat) : Int))
    (hlen : 3 * k + 2 < c.buffer.length) (hP : P k) : readPixel c1 x y = some (r, g, b) := by
  obtain ⟨_, hS, _, _, e⟩ := h
  rw [readPixel_valid c1 x y k (by rw [GetIndex_congr_Size c c1 x y hS]; exact hidx)]
  have e0 := (e (3 * k) (by omega)).1 (by rw [show 3 * k / 3 = k by omega]; exact hP)
  have e1 := (e (3 * k + 1) (by omega)).1 (by rw [show (3 * k + 1) / 3 = k by omega]; exact hP)
  have e2 := (e (3 * k + 2) (by omega)).1 (by rw [show (3 * k + 2) / 3 = k by omega]; exact hP)
  rw [e0, e1, e2, show 3 * k % 3 = 0 by omega, show (3 * k + 1) % 3 = 1 by omega,
    show (3 * k + 2) % 3 = 2 by omega]
  rfl

theorem Paints.readPixel_kept {c c1 : Client} {r g b : Int} {P : Nat → Prop}
    (h : Paints c c1 r g b P) (x y : Int) (k : Nat)
    (hidx : GetIndex c x y = ((3 * k : Nat) : Int))
    (hlen : 3 * k + 2 < c.buffer.length) (hP : ¬ P k) : readPixel c1 x y = readPixel c x y := by
  obtain ⟨_, hS, _, _, e⟩ := h
  rw [readPixel_valid c1 x y k (by rw [GetIndex_congr_Size c c1 x y hS]; exact hidx),
    readPixel_valid c x y k hidx]
  have e0 := (e (3 * k) (by omega)).2 (by rw [show 3 * k / 3 = k by omega]; exact hP)
  have e1 := (e (3 * k + 1) (by omega)).2 (by rw [show (3 * k + 1) / 3 = k by omega]; exact hP)
  have e2 := (e (3 * k + 2) (by omega)).2 (by rw [show (3 * k + 2) / 3 = k by omega]; exact hP)
  rw [e0, e1, e2]

theorem load_nat (s : List Int) (n : Nat) : load s ((n : Nat) : Int) = s[n]? := by
  simp [load]

theorem load_neg (s : List Int) (i : Int) (h : i < 0) : load s i = none := by
  simp [load, h]

theorem load_of_nonneg (s : List Int) (i : Int) (h : 0 ≤ i) : load s i = s[i.toNat]? := by
  simp [load, h]

theorem flatten_replicate_rgb (r g b : Int) (n : Nat) :
    ∀ j : Nat, ((List.replicate n [r, g, b]).flatten)[j]? =
      if j < 3 * n then some (channel r g b (j % 3)) else none := by
  induction n with
  | zero => intro j; simp
  | succ n ih =>
    intro j
    rw [List.replicate_succ, List.flatten_cons]
    match j with
    | 0 => simp [channel]
    | 1 => simp [channel]; omega
    | 2 => simp [channel]; omega
    | j + 3 =>
      have : ([r, g, b] ++ (List.replicate n [r, g, b]).flatten)[j + 3]? =
          ((List.replicate n [r, g, b]).flatten)[j]? := by
        simp
      rw [this, ih j, show (j + 3) % 3 = j % 3 by omega]
      by_cases h : j < 3 * n
      · rw [if_pos h, if_pos (by omega)]
      · rw [if_neg h, if_neg (by omega)]

theorem Fill_paints (c : Client) (r g b : Int)
    (hlen : (c.buffer.length : Int) = 3 * c.Size * c.Size)
    (hrep : (c.buffer.length : Int) < 2 ^ 63) :
    ∃ c1, Fill c r g b = (c1, Outcome.nil) ∧
      Paints c c1 r g b (fun k => ∃ x ∈ upTo c.Size, ∃ y ∈ upTo c.Size,
        (k : Int) = x + y * c.Size) := by
  unfold Fill
  apply forEach_paints _ r g b (fun x k => ∃ y ∈ upTo c.Size, (k : Int) = x + y * c.Size)
    c.Size c.buffer.length (upTo c.Size) c rfl rfl
  intro x hx c1 hS1 hn1
  rw [hS1]
  apply forEach_paints _ r g b (fun y k => (k : Int) = x + y * c.Size)
    c.Size c.buffer.length (upTo c.Size) c1 hS1 hn1
  intro y hy c2 hS2 hn2
  rw [mem_upTo] at hx hy
  have := SetPixel_paints c2 x y r g b (by rw [hn2, hS2]; exact hlen) (by rw [hn2]; exact hrep)
    hx.1 (by rw [hS2]; exact hx.2) hy.1 (by rw [hS2]; exact hy.2)
  rw [hS2] at this
  exact this

theorem every_pixel_covered (S : Int) (hS : 0 ≤ S) (k : Nat) (hk : (k : Int) < S * S) :
    ∃ x ∈ upTo S, ∃ y ∈ upTo S, (k : Int) = x + y * S := by
  have hpos : 0 < S := by
    rcases hS.lt_or_eq with h | h
    · exact h
    · rw [← h] at hk; simp at hk; omega
  refine ⟨(k : Int) % S, (mem_upTo _ _).2 ⟨Int.emod_nonneg _ (by omega), Int.emod_lt_of_pos _ hpos⟩,
    (k : Int) / S, (mem_upTo _ _).2 ⟨Int.ediv_nonneg (by omega) hS, ?_⟩, ?_⟩
  · exact Int.ediv_lt_of_lt_mul hpos hk
  · have := Int.emod_add_ediv (k : Int) S
    rw [mul_comm] at this
    exact this.symm

theorem Client.eq_of_fields (c c1 : Client) (hA : c1.Address = c.Address) (hS : c1.Size = c.Size)
    (hq : c1.reqCounter = c.reqCounter) : c1 = { c with buffer := c1.buffer } := by
  cases c; cases c1; simp_all

/-- C1: on a client with `len(buffer) = 3*Size*Size` (a slice, so fewer than
`2^63` entries) and valid `(x, y)`, `SetPixel(x, y, r, g, b)` ends normally,
the entries at `GetIndex(x,y)`, `+1`, `+2` become `r`, `g`, `b` exactly as
given (any integers, no narrowing), every other index reads as before, and the
buffer length, `Size`, `Address` and `reqCounter` are unchanged. -/
theorem SetPixel_writes_three_entries (c : Client) (x y r g b : Int)
    (hlen : (c.buffer.length : Int) = 3 * c.Size * c.Size)
    (hrep : (c.buffer.length : Int) < 2 ^ 63)
    (hx : 0 ≤ x ∧ x < c.Size) (hy : 0 ≤ y ∧ y < c.Size) :
    (SetPixel c x y r g b).2 = Outcome.nil ∧
    (SetPixel c x y r g b).1.Address = c.Address ∧
    (SetPixel c x y r g b).1.Size = c.Size ∧
    (SetPixel c x y r g b).1.reqCounter = c.reqCounter ∧
    (SetPixel c x y r g b).1.buffer.length = c.buffer.length ∧
    load (SetPixel c x y r g b).1.buffer (GetIndex c x y) = some r ∧
    load (SetPixel c x y r g b).1.buffer (GetIndex c x y + 1) = some g ∧
    load (SetPixel c x y r g b).1.buffer (GetIndex c x y + 2) = some b ∧
    ∀ i : Int, i ≠ GetIndex c x y → i ≠ GetIndex c x y + 1 → i ≠ GetIndex c x y + 2 →
      load (SetPixel c x y r g b).1.buffer i = load c.buffer i := by
  obtain ⟨k, hk, i0, hklen⟩ := valid_index c x y hlen hrep hx.1 hx.2 hy.1 hy.2
  obtain ⟨h1, hA, hS, hq, hl, e⟩ := SetPixel_at c x y r g b k i0 hklen hrep
  have i1 : GetIndex c x y + 1 = ((3 * k + 1 : Nat) : Int) := by rw [i0]; omega
  have i2 : GetIndex c x y + 2 = ((3 * k + 2 : Nat) : Int) := by rw [i0]; omega
  rw [h1, i1, i2, i0]
  dsimp only
  refine ⟨rfl, rfl, rfl, rfl, hl, ?_, ?_, ?_, ?_⟩
  · rw [load_nat, (e (3 * k) (by omega)).1 (by omega)]
    simp [channel]
  · rw [load_nat, (e (3 * k + 1) (by omega)).1 (by omega)]
    simp [channel]; omega
  · rw [load_nat, (e (3 * k + 2) (by omega)).1 (by omega)]
    simp [channel]; omega
  · intro i n0 n1 n2
    rcases lt_or_le i 0 with hneg | hpos
    · rw [load_neg _ _ hneg, load_neg _ _ hneg]
    · rw [load_of_nonneg _ _ hpos, load_of_nonneg _ _ hpos]
      rcases lt_or_le i.toNat c.buffer.length with hin | hout
      · exact (e i.toNat hin).2 (by omega)
      · rw [List.getElem?_eq_none hout, List.getElem?_eq_none (by rw [hl]; exact hout)]

theorem SetPixel_writes_three_entries_witness :
    (SetPixel display2 1 1 (-1) 256 700).1.buffer =
      [0, 0, 0, 0, 0, 0, 0, 0, 0, -1, 256, 700] ∧
    load (SetPixel display2 1 1 (-1) 256 700).1.buffer (GetIndex display2 1 1 + 1) = some 256 :=
  ⟨by decide,
   (SetPixel_writes_three_entries display2 1 1 (-1) 256 700 (by decide) (by decide)
      ⟨by decide, by decide⟩ ⟨by decide, by decide⟩).2.2.2.2.2.2.1⟩

/-- C6: on a client with `Size = N >= 0` and `len(buffer) = 3*N*N` (a slice, so
fewer than `2^63` entries), whatever the buffer held, `Fill(r, g, b)` ends
normally (no store out of bounds) and leaves the buffer equal to `N*N`
repetitions of `r, g, b`; every pixel `(x, y)` with `0 <= x, y < N` reads back
`(r, g, b)`, and no other field changes. -/
theorem Fill_sets_every_pixel (c : Client) (r g b : Int) (hN : 0 ≤ c.Size)
    (hlen : (c.buffer.length : Int) = 3 * c.Size * c.Size)
    (hrep : (c.buffer.length : Int) < 2 ^ 63) :
    Fill c r g b =
      ({ c with buffer := (List.replicate (c.Size * c.Size).toNat [r, g, b]).flatten },
        Outcome.nil) ∧
    ∀ x y : Int, 0 ≤ x → x < c.Size → 0 ≤ y → y < c.Size →
      readPixel (Fill c r g b).1 x y = some (r, g, b) := by
  obtain ⟨c1, h1, p⟩ := Fill_paints c r g b hlen hrep
  have h3 : 3 * c.Size * c.Size = 3 * (c.Size * c.Size) := by ring
  have hsq : 0 ≤ c.Size * c.Size := mul_nonneg hN hN
  rw [h1]
  constructor
  · have hbuf : c1.buffer = (List.replicate (c.Size * c.Size).toNat [r, g, b]).flatten := by
      apply List.ext_getElem?
      intro j
      rw [flatten_replicate_rgb]
      by_cases hj : j < c.buffer.length
      · rw [if_pos (by omega)]
        exact (p.2.2.2.2 j hj).1 (every_pixel_covered c.Size hN (j / 3) (by omega))
      · rw [if_neg (by omega)]
        exact List.getElem?_eq_none (by rw [p.2.2.2.1]; omega)
    rw [Client.eq_of_fields c c1 p.1 p.2.1 p.2.2.1, hbuf]
  · intro x y hx0 hx hy0 hy
    obtain ⟨k, hk, hidx, hklen⟩ := valid_index c x y hlen hrep hx0 hx hy0 hy
    exact p.readPixel_painted x y k hidx hklen
      (every_pixel_covered c.Size hN k (by omega))

theorem Fill_sets_every_pixel_witness :
    Fill (Client.mk "10.0.0.5" 2 [9, 8, 7, 6, 5, 4, 3, 2, 1, 0, -1, 300] 4) 1 2 3 =
      (Client.mk "10.0.0.5" 2 [1, 2, 3, 1, 2, 3, 1, 2, 3, 1, 2, 3] 4, Outcome.nil) :=
  (Fill_sets_every_pixel (Client.mk "10.0.0.5" 2 [9, 8, 7, 6, 5, 4, 3, 2, 1, 0, -1, 300] 4) 1 2 3
    (by decide) (by decide) (by decide)).1

/-! ## Glyph drawing -/

theorem DrawCharacter_paints (chars : Glyphs) (c : Client) (ch : rune) (glyph : List Int)
    (x y r g b : Int) (hg : chars ch = some glyph)
    (hlen : (c.buffer.length : Int) = 3 * c.Size * c.Size)
    (hrep : (c.buffer.length : Int) < 2 ^ 63)
    (hx0 : 0 ≤ x) (hx2 : x + 2 < c.Size) (hy0 : 0 ≤ y)
    (hyN : y + (((glyph.length - 1) / 3 : Nat) : Int) < c.Size) :
    ∃ c1, DrawCharacter chars c ch x y r g b = (c1, Outcome.nil) ∧
      Paints c c1 r g b (fun k => ∃ i : Nat, glyph[i]? = some 1 ∧
        (k : Int) = (x + ((i % 3 : Nat) : Int)) + (y + ((i / 3 : Nat) : Int)) * c.Size) := by
  have hfit : c.Size < 2 ^ 63 := by
    have h3 : 3 * c.Size * c.Size = 3 * (c.Size * c.Size) := by ring
    have : c.Size ≤ c.Size * c.Size := le_mul_of_one_le_left (by omega) (by omega)
    omega
  unfold DrawCharacter
  rw [hg]
  dsimp only
  obtain ⟨c1, h1, p1⟩ := forEach_paints (drawCell x y r g b) r g b
    (fun cell k => cell.2 = 1 ∧
      (k : Int) = (x + ((cell.1 % 3 : Nat) : Int)) + (y + ((cell.1 / 3 : Nat) : Int)) * c.Size)
    c.Size c.buffer.length glyph.enum c rfl rfl (by
      rintro ⟨i, v⟩ hmem c1 hS1 hn1
      have hi : i < glyph.length := by
        have := List.mk_mem_enum_iff_getElem?.1 hmem
        exact (List.getElem?_eq_some_iff.1 this).1
      by_cases hv : v = 1
      · have hsp := SetPixel_paints c1 (x + ((i % 3 : Nat) : Int)) (y + ((i / 3 : Nat) : Int))
          r g b (by rw [hn1, hS1]; exact hlen) (by rw [hn1]; exact hrep)
          (by omega) (by rw [hS1]; omega) (by omega) (by rw [hS1]; omega)
        obtain ⟨c2, h2, p2⟩ := hsp
        refine ⟨c2, ?_, p2.congr ?_⟩
        · simp only [drawCell, hv, if_true]
          rw [wrap_of_range _ (by omega) (by omega), wrap_of_range _ (by omega) (by omega)]
          exact h2
        · intro k
          simp only [hv, hS1, true_and]
      · refine ⟨c1, ?_, (Paints.none c1 r g b).congr ?_⟩
        · simp only [drawCell, hv, if_false]
        · intro k
          simp only [hv, false_and])
  refine ⟨c1, h1, p1.congr ?_⟩
  intro k
  constructor
  · rintro ⟨⟨i, v⟩, hmem, hv, hk⟩
    dsimp only at hv hk
    subst hv
    exact ⟨i, List.mk_mem_enum_iff_getElem?.1 hmem, hk⟩
  · rintro ⟨i, hi, hk⟩
    exact ⟨(i, 1), List.mk_mem_enum_iff_getElem?.2 hi, rfl, hk⟩

/-- C4: for every glyph table and every character that is not a key of it,
`DrawCharacter` returns the error "unrecognized character" and leaves the
client (buffer, `Size`, `reqCounter`, `Address`) exactly as it was, whatever
the coordinates and the colour. -/
theorem DrawCharacter_unknown_character (chars : Glyphs) (c : Client) (ch : rune)
    (x y r g b : Int) (h : chars ch = none) :
    DrawCharacter chars c ch x y r g b = (c, Outcome.error "unrecognized character") := by
  simp only [DrawCharacter, h]

theorem DrawCharacter_unknown_character_witness :
    DrawCharacter demoChars (Client.mk "10.0.0.5" 2 [9, 8, 7, 6, 5, 4, 3, 2, 1, 0, -1, 300] 4)
      65 (-3) 40 1 2 3 =
    (Client.mk "10.0.0.5" 2 [9, 8, 7, 6, 5, 4, 3, 2, 1, 0, -1, 300] 4,
      Outcome.error "unrecognized character") :=
  DrawCharacter_unknown_character demoChars
    (Client.mk "10.0.0.5" 2 [9, 8, 7, 6, 5, 4, 3, 2, 1, 0, -1, 300] 4) 65 (-3) 40 1 2 3
    (by decide)

/-- C5: for a character mapped to the bitmap `glyph` (cells row-major on three
columns), on a client with `len(buffer) = 3*Size*Size` (a slice, so fewer than
`2^63` entries) and a position such that `0 <= x`, `x+2 < Size`, `0 <= y` and
`y + (len(glyph)-1)/3 < Size`, `DrawCharacter` returns nil; afterwards the
pixel `(x + i mod 3, y + i div 3)` is `(r, g, b)` for every cell `i` holding 1,
and every valid pixel that is not under a cell holding 1 (the pixels under 0
cells included) reads as before. The buffer length and the other fields do not
change. -/
theorem DrawCharacter_overlays_glyph (chars : Glyphs) (c : Client) (ch : rune)
    (glyph : List Int) (x y r g b : Int) (hg : chars ch = some glyph)
    (hlen : (c.buffer.length : Int) = 3 * c.Size * c.Size)
    (hrep : (c.buffer.length : Int) < 2 ^ 63)
    (hx0 : 0 ≤ x) (hx2 : x + 2 < c.Size) (hy0 : 0 ≤ y)
    (hyN : y + (((glyph.length - 1) / 3 : Nat) : Int) < c.Size) :
    (DrawCharacter chars c ch x y r g b).2 = Outcome.nil ∧
    (DrawCharacter chars c ch x y r g b).1.Address = c.Address ∧
    (DrawCharacter chars c ch x y r g b).1.Size = c.Size ∧
    (DrawCharacter chars c ch x y r g b).1.reqCounter = c.reqCounter ∧
    (DrawCharacter chars c ch x y r g b).1.buffer.length = c.buffer.length ∧
    (∀ i : Nat, glyph[i]? = some 1 →
      readPixel (DrawCharacter chars c ch x y r g b).1
        (x + ((i % 3 : Nat) : Int)) (y + ((i / 3 : Nat) : Int)) = some (r, g, b)) ∧
    (∀ px py : Int, 0 ≤ px → px < c.Size → 0 ≤ py → py < c.Size →
      (¬ ∃ i : Nat, glyph[i]? = some 1 ∧
        px = x + ((i % 3 : Nat) : Int) ∧ py = y + ((i / 3 : Nat) : Int)) →
      readPixel (DrawCharacter chars c ch x y r g b).1 px py = readPixel c px py) := by
  obtain ⟨c1, h1, p⟩ :=
    DrawCharacter_paints chars c ch glyph x y r g b hg hlen hrep hx0 hx2 hy0 hyN
  rw [h1]
  dsimp only
  refine ⟨rfl, p.1, p.2.1, p.2.2.1, p.2.2.2.1, ?_, ?_⟩
  · intro i hi
    have hil : i < glyph.length := (List.getElem?_eq_some_iff.1 hi).1
    obtain ⟨k, hk, hidx, hklen⟩ := valid_index c (x + ((i % 3 : Nat) : Int))
      (y + ((i / 3 : Nat) : Int)) hlen hrep (by omega) (by omega) (by omega) (by omega)
    exact p.readPixel_painted _ _ k hidx hklen ⟨i, hi, hk⟩
  · intro px py hpx0 hpx hpy0 hpy hnot
    obtain ⟨k, hk, hidx, hklen⟩ := valid_index c px py hlen hrep hpx0 hpx hpy0 hpy
    refine p.readPixel_kept px py k hidx hklen ?_
    rintro ⟨i, hi, hki⟩
    apply hnot
    obtain ⟨e1, e2⟩ := pixel_index_inj c.Size px py (x + ((i % 3 : Nat) : Int))
      (y + ((i / 3 : Nat) : Int)) hpx0 hpx (by omega) (by omega) (by rw [← hk, hki])
    exact ⟨i, hi, e1, e2⟩

theorem DrawCharacter_overlays_glyph_witness :
    (DrawCharacter demoChars (Client.mk "10.0.0.5" 5 (List.replicate 75 4) 1) 49 1 0 7 8 9).2 =
      Outcome.nil ∧
    readPixel (DrawCharacter demoChars (Client.mk "10.0.0.5" 5 (List.replicate 75 4) 1)
      49 1 0 7 8 9).1 2 0 = some (7, 8, 9) ∧
    readPixel (DrawCharacter demoChars (Client.mk "10.0.0.5" 5 (List.replicate 75 4) 1)
      49 1 0 7 8 9).1 1 0 = some (4, 4, 4) :=
  ⟨(DrawCharacter_overlays_glyph demoChars (Client.mk "10.0.0.5" 5 (List.replicate 75 4) 1) 49
      [0, 1, 0, 1, 1, 0, 0, 1, 0, 0, 1, 0, 1, 1, 1] 1 0 7 8 9 (by decide) (by decide)
      (by decide) (by decide) (by decide) (by decide) (by decide)).1,
    by decide, by decide⟩

/-! ## Encoding -/

theorem charSextet_sextetChar : ∀ n < 64, charSextet (sextetChar n) = some n := by decide

theorem sextetChar_ne_pad : ∀ n < 64, sextetChar n ≠ '=' := by decide

theorem decodeChars_encodeChars :
    ∀ bs : List Nat, (∀ v ∈ bs, v < 256) → decodeChars (encodeChars bs) = some bs
  | [], _ => rfl
  | [a], h => by
    have ha : a < 256 := h a (by simp)
    simp only [encodeChars, decodeChars, if_true]
    rw [charSextet_sextetChar _ (by omega), charSextet_sextetChar _ (by omega)]
    simp only [Option.some.injEq, List.cons.injEq, and_true]
    omega
  | [a, b], h => by
    have ha : a < 256 := h a (by simp)
    have hb : b < 256 := h b (by simp)
    simp only [encodeChars, decodeChars, if_true]
    rw [if_neg (sextetChar_ne_pad _ (by omega)), charSextet_sextetChar _ (by omega),
      charSextet_sextetChar _ (by omega), charSextet_sextetChar _ (by omega)]
    simp only [Option.some.injEq, List.cons.injEq, and_true]
    omega
  | a :: b :: c :: rest, h => by
    have ha : a < 256 := h a (by simp)
    have hb : b < 256 := h b (by simp)
    have hc : c < 256 := h c (by simp)
    have ih := decodeChars_encodeChars rest (fun v hv => h v (by simp [hv]))
    simp only [encodeChars, decodeChars]
    rw [if_neg (sextetChar_ne_pad _ (by omega)), charSextet_sextetChar _ (by omega),
      charSextet_sextetChar _ (by omega), charSextet_sextetChar _ (by omega),
      charSextet_sextetChar _ (by omega), ih]
    simp only [Option.some.injEq, List.cons.injEq, and_true]
    omega

theorem byte_lt (v : Int) : byte v < 256 := by
  unfold byte
  omega

theorem byte_cast (v : Int) : ((byte v : Nat) : Int) = v % 256 := by
  unfold byte
  omega

/-- C2: the byte sequence that `Push` encodes into `PicData` is the buffer
narrowed entry by entry: it has the length of the buffer, its i-th byte is the
residue of `buffer[i]` modulo 256 in `0..255` (0, 1, 255, 256, -1 give 0, 1,
255, 0, 255), and base64-decoding `PicData` returns exactly this sequence. -/
theorem Push_payload_roundtrip (w : Wire) (c : Client) :
    (Push w c).2.1.field "PicData" =
      some (Value.str (EncodeToString (c.buffer.map byte))) ∧
    DecodeString (EncodeToString (c.buffer.map byte)) = some (c.buffer.map byte) ∧
    (c.buffer.map byte).length = c.buffer.length ∧
    (∀ (i : Nat) (v : Int), c.buffer[i]? = some v →
      ∃ n : Nat, (c.buffer.map byte)[i]? = some n ∧ n < 256 ∧ (n : Int) = v % 256) ∧
    [0, 1, 255, 256, -1].map byte = [0, 1, 255, 0, 255] := by
  refine ⟨rfl, ?_, List.length_map _ _, ?_, by decide⟩
  · apply decodeChars_encodeChars
    intro v hv
    obtain ⟨a, _, rfl⟩ := List.mem_map.1 hv
    exact byte_lt a
  · intro i v hv
    exact ⟨byte v, by rw [List.getElem?_map, hv]; rfl, byte_lt v, byte_cast v⟩

theorem Push_payload_roundtrip_witness :
    DecodeString (EncodeToString ([0, 0, 0, 1, 1, 1, 255, 256, -1, -256, 257, 511].map byte)) =
      some [0, 0, 0, 1, 1, 1, 255, 0, 255, 0, 1, 255] :=
  (Push_payload_roundtrip Wire.delivered
    (Client.mk "10.0.0.5" 2 [0, 0, 0, 1, 1, 1, 255, 256, -1, -256, 257, 511] 1)).2.1

theorem SetPixel_reqCounter (c : Client) (x y r g b : Int) :
    (SetPixel c x y r g b).1.reqCounter = c.reqCounter := by
  unfold SetPixel
  dsimp only
  split
  · rfl
  · split
    · rfl
    · split <;> rfl

theorem forEach_reqCounter {α : Type} (body : α → Client → Client × Outcome)
    (hbody : ∀ a c, (body a c).1.reqCounter = c.reqCounter) :
    ∀ (L : List α) (c : Client), (forEach body L c).1.reqCounter = c.reqCounter := by
  intro L
  induction L with
  | nil => intro c; rfl
  | cons a rest ih =>
    intro c
    have h := hbody a c
    unfold forEach
    split
    · rename_i c1 heq
      rw [ih c1, ← h, heq]
    · rename_i c1 o _ heq
      rw [← h, heq]

theorem Fill_reqCounter (c : Client) (r g b : Int) :
    (Fill c r g b).1.reqCounter = c.reqCounter := by
  unfold Fill
  apply forEach_reqCounter
  intro x c1
  apply forEach_reqCounter
  intro y c2
  exact SetPixel_reqCounter c2 x y r g b

theorem DrawCharacter_reqCounter (chars : Glyphs) (c : Client) (ch : rune) (x y r g b : Int) :
    (DrawCharacter chars c ch x y r g b).1.reqCounter = c.reqCounter := by
  unfold DrawCharacter
  split
  · rfl
  · apply forEach_reqCounter
    intro cell c1
    unfold drawCell
    split
    · exact SetPixel_reqCounter _ _ _ _ _ _
    · rfl

theorem step_reqCounter (chars : Glyphs) (c : Client) (op : Op) :
    (step chars c op).reqCounter = c.reqCounter + (if op.isPush then 1 else 0) := by
  cases op with
  | setPixel x y r g b => simpa [step, Op.isPush] using SetPixel_reqCounter c x y r g b
  | fill r g b => simpa [step, Op.isPush] using Fill_reqCounter c r g b
  | drawCharacter ch x y r g b =>
    simpa [step, Op.isPush] using DrawCharacter_reqCounter chars c ch x y r g b
  | push w => rfl
  | setBrightness n w => simp [step, Op.isPush, SetBrightness]
  | setPowerStatus s w => simp [step, Op.isPush, SetPowerStatus]
  | turnOn w => simp [step, Op.isPush, TurnOn, SetPowerStatus]
  | turnOff w => simp [step, Op.isPush, TurnOff, SetPowerStatus]
  | reset w => simp [step, Op.isPush, Reset]

theorem Push_PicID (w : Wire) (c : Client) :
    (Push w c).2.1.field "PicID" = some (Value.int c.reqCounter) := by
  simp [Push, Body.field, List.find?]

theorem pushed_PicID (chars : Glyphs) :
    ∀ (ops : List Op) (c : Client) (i : Nat) (body : Body),
      (pushed chars c ops)[i]? = some body →
      body.field "PicID" = some (Value.int (c.reqCounter + i)) := by
  intro ops
  induction ops with
  | nil => intro c i body h; simp [pushed] at h
  | cons op rest ih =>
    intro c i body h
    have hstep := step_reqCounter chars c op
    cases op with
    | push w =>
      simp only [pushed] at h
      cases i with
      | zero =>
        simp only [List.getElem?_cons_zero, Option.some.injEq] at h
        rw [← h]
        simpa using Push_PicID w c
      | succ i =>
        simp only [List.getElem?_cons_succ] at h
        have := ih _ i body h
        rw [this, hstep]
        simp [Op.isPush]
        omega
    | setPixel x y r g b =>
      simp only [pushed] at h
      have := ih _ i body h
      rw [this, hstep]; simp [Op.isPush]
    | fill r g b =>
      simp only [pushed] at h
      have := ih _ i body h
      rw [this, hstep]; simp [Op.isPush]
    | drawCharacter ch x y r g b =>
      simp only [pushed] at h
      have := ih _ i body h
      rw [this, hstep]; simp [Op.isPush]
    | setBrightness n w =>
      simp only [pushed] at h
      have := ih _ i body h
      rw [this, hstep]; simp [Op.isPush]
    | setPowerStatus s w =>
      simp only [pushed] at h
      have := ih _ i body h
      rw [this, hstep]; simp [Op.isPush]
    | turnOn w =>
      simp only [pushed] at h
      have := ih _ i body h
      rw [this, hstep]; simp [Op.isPush]
    | turnOff w =>
      simp only [pushed] at h
      have := ih _ i body h
      rw [this, hstep]; simp [Op.isPush]
    | reset w =>
      simp only [pushed] at h
      have := ih _ i body h
      rw [this, hstep]; simp [Op.isPush]

theorem pushed_length (chars : Glyphs) :
    ∀ (ops : List Op) (c : Client), (pushed chars c ops).length = ops.countP Op.isPush := by
  intro ops
  induction ops with
  | nil => intro c; rfl
  | cons op rest ih =>
    intro c
    cases op <;> simp [pushed, Op.isPush, ih]

/-! ## Push: the claims -/

theorem NewClient_some (maxLen : Nat) (address : String) (size : Int) (c0 : Client)
    (h0 : NewClient maxLen address size = some c0) :
    c0.Address = address ∧ c0.Size = size ∧ c0.reqCounter = 1 ∧
    c0.buffer = List.replicate (wrap (wrap (size * size) * 3)).toNat 0 ∧
    0 ≤ wrap (wrap (size * size) * 3) ∧ wrap (wrap (size * size) * 3) ≤ (maxLen : Int) := by
  unfold NewClient make at h0
  split at h0
  · simp at h0
  · rename_i buf hbuf
    split at hbuf
    · rename_i hcond
      simp only [Option.some.injEq] at hbuf h0
      subst hbuf
      subst h0
      exact ⟨rfl, rfl, rfl, rfl, hcond.1, hcond.2⟩
    · simp at hbuf

theorem NewClient_eq (maxLen : Nat) (address : String) (size : Int)
    (h0 : 0 ≤ wrap (wrap (size * size) * 3))
    (h1 : wrap (wrap (size * size) * 3) ≤ (maxLen : Int)) :
    NewClient maxLen address size =
      some (Client.mk address size
        (List.replicate (wrap (wrap (size * size) * 3)).toNat 0) 1) := by
  unfold NewClient make
  rw [if_pos ⟨h0, h1⟩]

/-- C3: on a client fresh from `NewClient`, in any sequence of calls (drawing
calls and device commands in any number between the pushes, whatever the
transport answered), the n-th `Push` builds a body whose `PicID` is `n`: the
first is 1 and the `PicID`s of two consecutive pushes differ by exactly 1.
There is one body per `Push` call. -/
theorem Push_nth_PicID (chars : Glyphs) (maxLen : Nat) (address : String) (size : Int)
    (c0 : Client) (ops : List Op) (h0 : NewClient maxLen address size = some c0) :
    (pushed chars c0 ops).length = ops.countP Op.isPush ∧
    (∀ (n : Nat) (body : Body), 1 ≤ n →
      (pushed chars c0 ops)[n - 1]? = some body →
      body.field "PicID" = some (Value.int n)) ∧
    (∀ (i : Nat) (b1 b2 : Body),
      (pushed chars c0 ops)[i]? = some b1 →
      (pushed chars c0 ops)[i + 1]? = some b2 →
      ∃ p : Int, b1.field "PicID" = some (Value.int p) ∧
        b2.field "PicID" = some (Value.int (p + 1))) := by
  have hq : c0.reqCounter = 1 := (NewClient_some maxLen address size c0 h0).2.2.1
  refine ⟨pushed_length chars ops _, ?_, ?_⟩
  · intro n body hn h
    rw [pushed_PicID chars ops _ (n - 1) body h, hq]
    congr 2
    omega
  · intro i b1 b2 h1 h2
    refine ⟨c0.reqCounter + i, pushed_PicID chars ops _ i b1 h1, ?_⟩
    rw [pushed_PicID chars ops _ (i + 1) b2 h2, Nat.cast_add, Nat.cast_one, add_assoc]

theorem Push_nth_PicID_witness :
    (pushed demoChars display5
      [Op.push Wire.delivered, Op.fill 1 2 3, Op.drawCharacter 49 1 0 7 8 9,
       Op.push Wire.delivered, Op.setPixel 0 0 255 0 0, Op.drawCharacter 65 0 0 1 1 1,
       Op.push Wire.delivered]).length = 3 ∧
    (pushed demoChars display5
      [Op.push Wire.delivered, Op.fill 1 2 3, Op.drawCharacter 49 1 0 7 8 9,
       Op.push Wire.delivered, Op.setPixel 0 0 255 0 0, Op.drawCharacter 65 0 0 1 1 1,
       Op.push Wire.delivered]).map (fun body => body.field "PicID") =
      [some (Value.int 1), some (Value.int 2), some (Value.int 3)] :=
  ⟨(Push_nth_PicID demoChars 75 "10.0.0.5" 5 display5
      [Op.push Wire.delivered, Op.fill 1 2 3, Op.drawCharacter 49 1 0 7 8 9,
       Op.push Wire.delivered, Op.setPixel 0 0 255 0 0, Op.drawCharacter 65 0 0 1 1 1,
       Op.push Wire.delivered] (by decide)).1,
   by decide⟩

/-- C9: whatever the transport did (delivery, marshalling error, connection
error), `Push` leaves the client with `reqCounter` increased by exactly 1 and
nothing else changed; when the transport failed `Push` returns the wrapped
error and the counter keeps the incremented value, so the next `Push` carries
a `PicID` one greater than the failed one. -/
theorem Push_counter_not_rolled_back (w : Wire) (c : Client) :
    (Push w c).1 = { c with reqCounter := c.reqCounter + 1 } ∧
    (Push w c).1.reqCounter = c.reqCounter + 1 ∧
    (Push Wire.delivered c).2.2 = Outcome.nil ∧
    (∀ e : String, (Push (Wire.marshalError e) c).2.2 =
      Outcome.error ("failed to marshal request body: " ++ e) ∧
      (Push (Wire.marshalError e) c).1.reqCounter = c.reqCounter + 1) ∧
    (∀ e : String, (Push (Wire.postError e) c).2.2 =
      Outcome.error ("error making request to Pixoo: " ++ e) ∧
      (Push (Wire.postError e) c).1.reqCounter = c.reqCounter + 1) ∧
    (Push w c).2.1.field "PicID" = some (Value.int c.reqCounter) ∧
    (∀ w2 : Wire, (Push w2 (Push w c).1).2.1.field "PicID" =
      some (Value.int (c.reqCounter + 1))) := by
  refine ⟨rfl, rfl, rfl, fun e => ⟨rfl, rfl⟩, fun e => ⟨rfl, rfl⟩, Push_PicID w c, ?_⟩
  intro w2
  exact Push_PicID w2 (Push w c).1

theorem Push_counter_not_rolled_back_witness :
    (Push (Wire.postError "connection refused") display2).2.2 =
      Outcome.error "error making request to Pixoo: connection refused" ∧
    (Push (Wire.postError "connection refused") display2).1.reqCounter = 2 ∧
    (Push Wire.delivered
      (Push (Wire.postError "connection refused") display2).1).2.1.field "PicID" =
      some (Value.int 2) :=
  ⟨by decide,
   (Push_counter_not_rolled_back (Wire.postError "connection refused")
      display2).2.1,
   (Push_counter_not_rolled_back (Wire.postError "connection refused")
      display2).2.2.2.2.2.2 Wire.delivered⟩

/-- C10: the body that `Push` hands to the transport has exactly the seven
fields `Command = "Draw/SendHttpGif"`, `PicNum = 1`, `PicWidth = Size`,
`PicOffset = 0`, `PicID` = the counter before the call, `PicSpeed = 1000` and
`PicData` = the base64 text of the buffer with every entry `v` replaced by its
residue `v mod 256` (decoding `PicData` gives back these residues). On
`NewClient("10.0.0.5", 2)` after `SetPixel(1,1,255,0,0)` the buffer is
`[0,0,0, 0,0,0, 0,0,0, 255,0,0]` and `Push` yields `PicWidth = 2`, `PicID = 1`,
`PicData` = the base64 text of the bytes `[0,0,0,0,0,0,0,0,0,255,0,0]`, and the
counter becomes 2; a buffer `[256, -1, 300]` is sent as the bytes `[0, 255, 44]`. -/
theorem Push_descriptor (w : Wire) (c : Client) :
    (Push w c).2.1 =
      [ ("Command", Value.str "Draw/SendHttpGif"),
        ("PicNum", Value.int 1),
        ("PicWidth", Value.int c.Size),
        ("PicOffset", Value.int 0),
        ("PicID", Value.int c.reqCounter),
        ("PicSpeed", Value.int 1000),
        ("PicData", Value.str (EncodeToString (c.buffer.map (fun v => (v % 256).toNat)))) ] ∧
    DecodeString (EncodeToString (c.buffer.map (fun v => (v % 256).toNat))) =
      some (c.buffer.map (fun v => (v % 256).toNat)) ∧
    (∀ maxLen : Nat, 12 ≤ maxLen → NewClient maxLen "10.0.0.5" 2 = some display2) ∧
    (SetPixel display2 1 1 255 0 0).1.buffer = [0, 0, 0, 0, 0, 0, 0, 0, 0, 255, 0, 0] ∧
    (Push w (SetPixel display2 1 1 255 0 0).1).2.1 =
      [ ("Command", Value.str "Draw/SendHttpGif"),
        ("PicNum", Value.int 1),
        ("PicWidth", Value.int 2),
        ("PicOffset", Value.int 0),
        ("PicID", Value.int 1),
        ("PicSpeed", Value.int 1000),
        ("PicData", Value.str "AAAAAAAAAAAA/wAA") ] ∧
    DecodeString "AAAAAAAAAAAA/wAA" = some [0, 0, 0, 0, 0, 0, 0, 0, 0, 255, 0, 0] ∧
    (Push w (SetPixel display2 1 1 255 0 0).1).1.reqCounter = 2 ∧
    (Push w (Client.mk "10.0.0.5" 1 [256, -1, 300] 7)).2.1 =
      [ ("Command", Value.str "Draw/SendHttpGif"),
        ("PicNum", Value.int 1),
        ("PicWidth", Value.int 1),
        ("PicOffset", Value.int 0),
        ("PicID", Value.int 7),
        ("PicSpeed", Value.int 1000),
        ("PicData", Value.str "AP8s") ] ∧
    DecodeString "AP8s" = some [0, 255, 44] := by
  have hb : (SetPixel display2 1 1 255 0 0).1 =
      Client.mk "10.0.0.5" 2 [0, 0, 0, 0, 0, 0, 0, 0, 0, 255, 0, 0] 1 := by decide
  have hs : EncodeToString [0, 0, 0, 0, 0, 0, 0, 0, 0, 255, 0, 0] = "AAAAAAAAAAAA/wAA" := by
    decide
  have hs2 : EncodeToString [0, 255, 44] = "AP8s" := by decide
  refine ⟨rfl, ?_, ?_, by decide, ?_, by decide, ?_, ?_, by decide⟩
  · apply decodeChars_encodeChars
    intro v hv
    obtain ⟨a, _, rfl⟩ := List.mem_map.1 hv
    exact byte_lt a
  · intro maxLen hm
    have hn : wrap (wrap ((2 : Int) * 2) * 3) = 12 := by decide
    rw [NewClient_eq maxLen "10.0.0.5" 2 (by rw [hn]; decide) (by rw [hn]; omega), hn]
    rfl
  · rw [hb, ← hs]
    rfl
  · rw [hb]
    rfl
  · rw [← hs2]
    rfl

theorem Push_descriptor_witness :
    (Push Wire.delivered (Client.mk "10.0.0.5" 1 [256, -1, 300] 7)).2.1.field "PicData" =
      some (Value.str "AP8s") ∧
    (Push Wire.delivered (SetPixel display2 1 1 255 0 0).1).1.reqCounter = 2 :=
  ⟨by decide, (Push_descriptor Wire.delivered display2).2.2.2.2.2.2.1⟩

/-! ## Buffer writes: bounds -/

theorem SetPixel_congr_index (c : Client) (x y x2 y2 r g b : Int)
    (h : GetIndex c x y = GetIndex c x2 y2) :
    SetPixel c x y r g b = SetPixel c x2 y2 r g b := by
  simp only [SetPixel, h]

theorem store_none (s : List Int) (i v : Int) (h : i < 0 ∨ (s.length : Int) ≤ i) :
    store s i v = none := by
  unfold store
  rw [if_neg (by omega)]

theorem store_some (s : List Int) (i v : Int) (h0 : 0 ≤ i) (h1 : i < (s.length : Int)) :
    store s i v = some (s.set i.toNat v) := by
  unfold store
  rw [if_pos ⟨h0, h1⟩]

theorem SetPixel_index_outside (c : Client) (x y r g b : Int)
    (h : GetIndex c x y < 0 ∨ (c.buffer.length : Int) ≤ GetIndex c x y) :
    SetPixel c x y r g b = (c, Outcome.panicked) := by
  simp only [SetPixel, store_none _ _ _ h]

theorem SetPixel_index_inside (c : Client) (x y r g b : Int)
    (hrep : (c.buffer.length : Int) < 2 ^ 63)
    (h0 : 0 ≤ GetIndex c x y) (h1 : GetIndex c x y + 2 < (c.buffer.length : Int)) :
    SetPixel c x y r g b =
      ({ c with buffer := ((c.buffer.set (GetIndex c x y).toNat r).set
          ((GetIndex c x y).toNat + 1) g).set ((GetIndex c x y).toNat + 2) b }, Outcome.nil) := by
  have i1 : wrap (GetIndex c x y + 1) = (((GetIndex c x y).toNat + 1 : Nat) : Int) := by
    rw [wrap_of_range _ (by omega) (by omega)]; omega
  have i2 : wrap (GetIndex c x y + 2) = (((GetIndex c x y).toNat + 2 : Nat) : Int) := by
    rw [wrap_of_range _ (by omega) (by omega)]; omega
  have i0 : store c.buffer (GetIndex c x y) r =
      some (c.buffer.set (GetIndex c x y).toNat r) := store_some _ _ _ h0 (by omega)
  simp only [SetPixel]
  rw [i1, i2, i0]
  simp only []
  rw [store_nat _ _ _ (by rw [List.length_set]; omega)]
  simp only []
  rw [store_nat _ _ _ (by rw [List.length_set, List.length_set]; omega)]

theorem SetPixel_index_straddles (c : Client) (x y r g b : Int)
    (hrep : (c.buffer.length : Int) < 2 ^ 63)
    (h0 : 0 ≤ GetIndex c x y) (h1 : GetIndex c x y < (c.buffer.length : Int))
    (h2 : (c.buffer.length : Int) ≤ GetIndex c x y + 2) :
    (SetPixel c x y r g b).2 = Outcome.panicked := by
  have i0 : store c.buffer (GetIndex c x y) r =
      some (c.buffer.set (GetIndex c x y).toNat r) := store_some _ _ _ h0 h1
  simp only [SetPixel]
  rw [i0]
  simp only []
  by_cases h3 : GetIndex c x y + 1 < (c.buffer.length : Int)
  · have i1 : wrap (GetIndex c x y + 1) = GetIndex c x y + 1 :=
      wrap_of_range _ (by omega) (by omega)
    have i2 : wrap (GetIndex c x y + 2) = GetIndex c x y + 2 :=
      wrap_of_range _ (by omega) (by omega)
    rw [i1, i2, store_some _ _ _ (by omega) (by rw [List.length_set]; omega)]
    simp only []
    rw [store_none _ _ _ (Or.inr (by rw [List.length_set, List.length_set]; omega))]
  · have i1 : wrap (GetIndex c x y + 1) = GetIndex c x y + 1 :=
      wrap_of_range _ (by omega) (by omega)
    rw [i1, store_none _ _ _ (Or.inr (by rw [List.length_set]; omega))]

theorem SetPixel_loads (c : Client) (x y r g b : Int)
    (hrep : (c.buffer.length : Int) < 2 ^ 63)
    (h0 : 0 ≤ GetIndex c x y) (h1 : GetIndex c x y + 2 < (c.buffer.length : Int)) :
    (SetPixel c x y r g b).2 = Outcome.nil ∧
    load (SetPixel c x y r g b).1.buffer (GetIndex c x y) = some r ∧
    load (SetPixel c x y r g b).1.buffer (GetIndex c x y + 1) = some g ∧
    load (SetPixel c x y r g b).1.buffer (GetIndex c x y + 2) = some b := by
  rw [SetPixel_index_inside c x y r g b hrep h0 h1]
  obtain ⟨n, hn⟩ : ∃ n : Nat, GetIndex c x y = (n : Int) := ⟨(GetIndex c x y).toNat, by omega⟩
  have i1 : GetIndex c x y + 1 = ((n + 1 : Nat) : Int) := by rw [hn]; omega
  have i2 : GetIndex c x y + 2 = ((n + 2 : Nat) : Int) := by rw [hn]; omega
  rw [i1, i2, hn]
  simp only [Int.toNat_ofNat, load_nat]
  refine ⟨trivial, ?_, ?_, ?_⟩
  · rw [List.getElem?_set, if_neg (by omega), List.getElem?_set, if_neg (by omega),
      List.getElem?_set, if_pos rfl, if_pos (by omega)]
  · rw [List.getElem?_set, if_neg (by omega), List.getElem?_set, if_pos rfl,
      if_pos (by rw [List.length_set]; omega)]
  · rw [List.getElem?_set, if_pos rfl,
      if_pos (by rw [List.length_set, List.length_set]; omega)]

theorem row_outside_index (S x y : Int) (hx0 : 0 ≤ x) (hx : x < S) (hy : ¬ (0 ≤ y ∧ y < S)) :
    x + y * S < 0 ∨ S * S ≤ x + y * S := by
  rcases lt_or_le y 0 with hneg | hpos
  · left
    have : y * S ≤ (-1) * S := mul_le_mul_of_nonneg_right (by omega) (by omega)
    omega
  · right
    have : S * S ≤ y * S := mul_le_mul_of_nonneg_right (by omega) (by omega)
    omega

/-- C11: on a client with `len(buffer) = 3*Size*Size` (a slice, so fewer than
`2^63` entries) and valid `(x, y)`, the three indices `GetIndex(x,y)`, `+1`,
`+2` written by `SetPixel` all lie in `0 .. len(buffer)-1`, each of the three
stores succeeds, and `SetPixel` ends normally: the out-of-bounds panic is not
reached. -/
theorem SetPixel_stores_in_bounds (c : Client) (x y r g b : Int)
    (hlen : (c.buffer.length : Int) = 3 * c.Size * c.Size)
    (hrep : (c.buffer.length : Int) < 2 ^ 63)
    (hx : 0 ≤ x ∧ x < c.Size) (hy : 0 ≤ y ∧ y < c.Size) :
    0 ≤ GetIndex c x y ∧ GetIndex c x y + 2 < (c.buffer.length : Int) ∧
    (∀ (s : List Int) (v : Int), s.length = c.buffer.length →
      (store s (GetIndex c x y) v).isSome = true ∧
      (store s (GetIndex c x y + 1) v).isSome = true ∧
      (store s (GetIndex c x y + 2) v).isSome = true) ∧
    (SetPixel c x y r g b).2 = Outcome.nil ∧
    (SetPixel c x y r g b).2 ≠ Outcome.panicked := by
  have hr := GetIndex_range c x y (by omega) hx.1 hx.2 hy.1 hy.2
  obtain ⟨c1, h1, _⟩ := SetPixel_paints c x y r g b hlen hrep hx.1 hx.2 hy.1 hy.2
  refine ⟨hr.1, by omega, ?_, by rw [h1], by rw [h1]; simp⟩
  intro s v hs
  unfold store
  refine ⟨?_, ?_, ?_⟩
  · rw [if_pos (by omega)]; rfl
  · rw [if_pos (by omega)]; rfl
  · rw [if_pos (by omega)]; rfl

theorem SetPixel_stores_in_bounds_witness :
    0 ≤ GetIndex display2 1 1 ∧
    GetIndex display2 1 1 + 2 < (display2.buffer.length : Int) ∧
    (SetPixel display2 1 1 255 0 0).2 = Outcome.nil :=
  ⟨(SetPixel_stores_in_bounds display2 1 1 255 0 0 (by decide) (by decide)
      ⟨by decide, by decide⟩ ⟨by decide, by decide⟩).1,
   (SetPixel_stores_in_bounds display2 1 1 255 0 0 (by decide) (by decide)
      ⟨by decide, by decide⟩ ⟨by decide, by decide⟩).2.1,
   (SetPixel_stores_in_bounds display2 1 1 255 0 0 (by decide) (by decide)
      ⟨by decide, by decide⟩ ⟨by decide, by decide⟩).2.2.2.1⟩

/-- C12 as amended: on a client with `len(buffer) = 3*Size*Size` (a slice, so
fewer than `2^63` entries), `SetPixel(x, y, r, g, b)` makes an out-of-bounds
access, and panics, exactly when one of the indices `GetIndex(x,y)`, `+1`, `+2`
lies outside `0 .. len(buffer)-1`; when `GetIndex(x,y)` itself lies outside,
nothing was written. This is the case for every `(x, y)` with `0 <= x < Size`
and `y` out of range for which `(x + y*Size)*3` stays in the 64-bit range. When
the three indices lie inside `0 .. len(buffer)-1` the call ends normally and
has stored `r`, `g`, `b` at them, even if `x` or `y` is out of range. -/
theorem SetPixel_out_of_bounds_by_index (c : Client) (x y r g b : Int)
    (hlen : (c.buffer.length : Int) = 3 * c.Size * c.Size)
    (hrep : (c.buffer.length : Int) < 2 ^ 63) :
    ((SetPixel c x y r g b).2 = Outcome.panicked ↔
      (GetIndex c x y < 0 ∨ (c.buffer.length : Int) ≤ GetIndex c x y + 2)) ∧
    ((GetIndex c x y < 0 ∨ (c.buffer.length : Int) ≤ GetIndex c x y) →
      SetPixel c x y r g b = (c, Outcome.panicked)) ∧
    ((0 ≤ x ∧ x < c.Size ∧ ¬ (0 ≤ y ∧ y < c.Size)) →
      (-2 ^ 63 ≤ (x + y * c.Size) * 3 ∧ (x + y * c.Size) * 3 < 2 ^ 63) →
      SetPixel c x y r g b = (c, Outcome.panicked)) ∧
    ((0 ≤ GetIndex c x y ∧ GetIndex c x y + 2 < (c.buffer.length : Int)) →
      (SetPixel c x y r g b).2 = Outcome.nil ∧
      load (SetPixel c x y r g b).1.buffer (GetIndex c x y) = some r ∧
      load (SetPixel c x y r g b).1.buffer (GetIndex c x y + 1) = some g ∧
      load (SetPixel c x y r g b).1.buffer (GetIndex c x y + 2) = some b) := by
  have h3 : 3 * c.Size * c.Size = 3 * (c.Size * c.Size) := by ring
  refine ⟨?_, SetPixel_index_outside c x y r g b, ?_,
    fun h => SetPixel_loads c x y r g b hrep h.1 h.2⟩
  · constructor
    · intro hp
      by_contra hin
      have := (SetPixel_loads c x y r g b hrep (by omega) (by omega)).1
      rw [this] at hp
      exact absurd hp (by simp)
    · intro hout
      by_cases h1 : GetIndex c x y < 0 ∨ (c.buffer.length : Int) ≤ GetIndex c x y
      · rw [SetPixel_index_outside c x y r g b h1]
      · exact SetPixel_index_straddles c x y r g b hrep (by omega) (by omega) (by omega)
  · rintro ⟨hx0, hx, hy⟩ ⟨hlo, hhi⟩
    apply SetPixel_index_outside
    rw [GetIndex_eq c x y hlo hhi]
    have := row_outside_index c.Size x y hx0 hx hy
    omega

theorem SetPixel_out_of_bounds_by_index_witness :
    SetPixel display3 0 3 7 8 9 = (display3, Outcome.panicked) ∧
    SetPixel display3 1 (-1) 7 8 9 = (display3, Outcome.panicked) :=
  ⟨(SetPixel_out_of_bounds_by_index display3 0 3 7 8 9 (by decide) (by decide)).2.1
      (Or.inr (by decide)),
   (SetPixel_out_of_bounds_by_index display3 1 (-1) 7 8 9 (by decide) (by decide)).2.2.1
      ⟨by decide, by decide, by decide⟩ ⟨by decide, by decide⟩⟩

/-- C12 as stated fails: on a 3x3 display `(3, 1)` is out of range (`x = Size`),
yet the three indices 18, 19, 20 lie inside the buffer of length 27 and
`SetPixel(3, 1, 7, 8, 9)` ends normally, having written the pixel `(0, 2)`.
Likewise `y = -6148914691236517205` is out of range, `y * 3` wraps to 1, and
`SetPixel(0, y, 7, 8, 9)` writes the pixel `(1, 0)` and ends normally. -/
theorem SetPixel_out_of_range_counterexample :
    (display3.buffer.length : Int) = 3 * display3.Size * display3.Size ∧
    ¬ ((0 : Int) ≤ 3 ∧ (3 : Int) < display3.Size ∧
        (0 : Int) ≤ 1 ∧ (1 : Int) < display3.Size) ∧
    GetIndex display3 3 1 = 18 ∧
    0 ≤ GetIndex display3 3 1 ∧
    GetIndex display3 3 1 + 2 < (display3.buffer.length : Int) ∧
    (SetPixel display3 3 1 7 8 9).2 = Outcome.nil ∧
    (SetPixel display3 3 1 7 8 9).1.buffer =
      [0, 0, 0, 0, 0, 0, 0, 0, 0, 0, 0, 0, 0, 0, 0, 0, 0, 0, 7, 8, 9, 0, 0, 0, 0, 0, 0] ∧
    readPixel (SetPixel display3 3 1 7 8 9).1 0 2 = some (7, 8, 9) ∧
    ¬ ((0 : Int) ≤ -6148914691236517205 ∧ (-6148914691236517205 : Int) < display3.Size) ∧
    GetIndex display3 0 (-6148914691236517205) = 3 ∧
    (SetPixel display3 0 (-6148914691236517205) 7 8 9).2 = Outcome.nil ∧
    readPixel (SetPixel display3 0 (-6148914691236517205) 7 8 9).1 1 0 = some (7, 8, 9) := by
  decide

/-- C13 as amended: on a client with `len(buffer) = 3*Size*Size` (a slice, so
fewer than `2^63` entries) and valid `(x, y)`, after `SetPixel(x, y, r, g, b)`
the three entries read at `GetIndex(x,y)`, `+1`, `+2` are `r`, `g`, `b` exactly
as given; they are `(r mod 256, g mod 256, b mod 256)` when `r`, `g`, `b` lie
in `0..255`, and for all integers the bytes that a following `Push` encodes
into `PicData` at these three positions are `r mod 256`, `g mod 256`,
`b mod 256`. -/
theorem SetPixel_reads_back_unnarrowed (c : Client) (x y r g b : Int)
    (hlen : (c.buffer.length : Int) = 3 * c.Size * c.Size)
    (hrep : (c.buffer.length : Int) < 2 ^ 63)
    (hx : 0 ≤ x ∧ x < c.Size) (hy : 0 ≤ y ∧ y < c.Size) :
    (load (SetPixel c x y r g b).1.buffer (GetIndex c x y) = some r ∧
     load (SetPixel c x y r g b).1.buffer (GetIndex c x y + 1) = some g ∧
     load (SetPixel c x y r g b).1.buffer (GetIndex c x y + 2) = some b) ∧
    ((0 ≤ r ∧ r ≤ 255) ∧ (0 ≤ g ∧ g ≤ 255) ∧ (0 ≤ b ∧ b ≤ 255) →
      load (SetPixel c x y r g b).1.buffer (GetIndex c x y) = some (r % 256) ∧
      load (SetPixel c x y r g b).1.buffer (GetIndex c x y + 1) = some (g % 256) ∧
      load (SetPixel c x y r g b).1.buffer (GetIndex c x y + 2) = some (b % 256)) ∧
    (∀ w : Wire, ∃ (s : String) (bytes : List Nat),
      (Push w (SetPixel c x y r g b).1).2.1.field "PicData" = some (Value.str s) ∧
      DecodeString s = some bytes ∧
      bytes.length = c.buffer.length ∧
      bytes[(GetIndex c x y).toNat]? = some (r % 256).toNat ∧
      bytes[(GetIndex c x y).toNat + 1]? = some (g % 256).toNat ∧
      bytes[(GetIndex c x y).toNat + 2]? = some (b % 256).toNat) := by
  have hr := GetIndex_range c x y (by omega) hx.1 hx.2 hy.1 hy.2
  obtain ⟨_, e0, e1, e2⟩ := SetPixel_loads c x y r g b hrep hr.1 (by omega)
  have hl : (SetPixel c x y r g b).1.buffer.length = c.buffer.length := by
    rw [SetPixel_index_inside c x y r g b hrep hr.1 (by omega)]
    simp
  refine ⟨⟨e0, e1, e2⟩, ?_, ?_⟩
  · rintro ⟨hr, hg, hbl⟩
    rw [e0, e1, e2, Int.emod_eq_of_lt hr.1 (by omega), Int.emod_eq_of_lt hg.1 (by omega),
      Int.emod_eq_of_lt hbl.1 (by omega)]
    exact ⟨rfl, rfl, rfl⟩
  · intro w
    refine ⟨EncodeToString ((SetPixel c x y r g b).1.buffer.map byte),
      (SetPixel c x y r g b).1.buffer.map byte, rfl, ?_, ?_, ?_, ?_, ?_⟩
    · apply decodeChars_encodeChars
      intro v hv
      obtain ⟨a, _, rfl⟩ := List.mem_map.1 hv
      exact byte_lt a
    · rw [List.length_map, hl]
    · rw [load_of_nonneg _ _ hr.1] at e0
      rw [List.getElem?_map, e0]
      rfl
    · rw [load_of_nonneg _ _ (by omega),
        show (GetIndex c x y + 1).toNat = (GetIndex c x y).toNat + 1 by omega] at e1
      rw [List.getElem?_map, e1]
      rfl
    · rw [load_of_nonneg _ _ (by omega),
        show (GetIndex c x y + 2).toNat = (GetIndex c x y).toNat + 2 by omega] at e2
      rw [List.getElem?_map, e2]
      rfl

theorem SetPixel_reads_back_unnarrowed_witness :
    load (SetPixel display2 1 1 256 (-1) 300).1.buffer (GetIndex display2 1 1) = some 256 ∧
    (Push Wire.delivered (SetPixel display2 1 1 256 (-1) 300).1).2.1.field "PicData" =
      some (Value.str "AAAAAAAAAAAAAP8s") ∧
    DecodeString "AAAAAAAAAAAAAP8s" = some [0, 0, 0, 0, 0, 0, 0, 0, 0, 0, 255, 44] :=
  ⟨(SetPixel_reads_back_unnarrowed display2 1 1 256 (-1) 300 (by decide) (by decide)
      ⟨by decide, by decide⟩ ⟨by decide, by decide⟩).1.1,
   by decide, by decide⟩

/-- C13 as stated fails: on a 2x2 display, after `SetPixel(1, 1, 256, -1, 300)`
the entries at `GetIndex(1,1) = 9`, 10, 11 read 256, -1, 300, not the residues
0, 255, 44 modulo 256. -/
theorem SetPixel_narrowed_counterexample :
    (display2.buffer.length : Int) = 3 * display2.Size * display2.Size ∧
    ((0 : Int) ≤ 1 ∧ (1 : Int) < display2.Size) ∧
    load (SetPixel display2 1 1 256 (-1) 300).1.buffer (GetIndex display2 1 1) = some 256 ∧
    load (SetPixel display2 1 1 256 (-1) 300).1.buffer (GetIndex display2 1 1 + 1) =
      some (-1) ∧
    load (SetPixel display2 1 1 256 (-1) 300).1.buffer (GetIndex display2 1 1 + 2) =
      some 300 ∧
    ((256 : Int) % 256 = 0 ∧ (-1 : Int) % 256 = 255 ∧ (300 : Int) % 256 = 44) ∧
    load (SetPixel display2 1 1 256 (-1) 300).1.buffer (GetIndex display2 1 1) ≠
      some ((256 : Int) % 256) ∧
    load (SetPixel display2 1 1 256 (-1) 300).1.buffer (GetIndex display2 1 1 + 1) ≠
      some ((-1 : Int) % 256) ∧
    load (SetPixel display2 1 1 256 (-1) 300).1.buffer (GetIndex display2 1 1 + 2) ≠
      some ((300 : Int) % 256) := by
  decide

/-- C17: `GetIndex(x + Size, y) = GetIndex(x, y + 1)` for all integers, also
when the caller's sums `x + Size` and `y + 1` wrap. Hence on a client with
`len(buffer) = 3*Size*Size` (a slice, so fewer than `2^63` entries), for
`0 <= k < Size` and `0 <= y < Size - 1`, `SetPixel(Size + k, y, r, g, b)`, whose
`x` is out of range, ends normally and leaves exactly the client that
`SetPixel(k, y + 1, r, g, b)` leaves: the overflow wraps into the next row. -/
theorem SetPixel_wraps_into_next_row (c : Client) (x y : Int) :
    GetIndex c (x + c.Size) y = GetIndex c x (y + 1) ∧
    ((c.buffer.length : Int) = 3 * c.Size * c.Size → (c.buffer.length : Int) < 2 ^ 63 →
      ∀ k r g b : Int, 0 ≤ k → k < c.Size → 0 ≤ y → y < c.Size - 1 →
        ¬ (c.Size + k < c.Size) ∧
        (SetPixel c (c.Size + k) y r g b).2 = Outcome.nil ∧
        SetPixel c (c.Size + k) y r g b = SetPixel c k (y + 1) r g b ∧
        readPixel (SetPixel c (c.Size + k) y r g b).1 k (y + 1) = some (r, g, b)) ∧
    GetIndex c (wrap (x + c.Size)) y = GetIndex c x (wrap (y + 1)) := by
  have hidx : ∀ a : Int, GetIndex c (a + c.Size) y = GetIndex c a (y + 1) := by
    intro a
    rw [GetIndex_wrap, GetIndex_wrap]
    congr 1
    ring
  refine ⟨hidx x, ?_, ?_⟩
  · intro hlen hrep k r g b hk0 hk hy0 hy
    have heq : SetPixel c (c.Size + k) y r g b = SetPixel c k (y + 1) r g b :=
      SetPixel_congr_index c _ _ _ _ r g b (by rw [add_comm]; exact hidx k)
    obtain ⟨c1, hc1, p⟩ :=
      SetPixel_paints c k (y + 1) r g b hlen hrep hk0 hk (by omega) (by omega)
    obtain ⟨n, hn, hnidx, hnlen⟩ :=
      valid_index c k (y + 1) hlen hrep hk0 hk (by omega) (by omega)
    rw [heq, hc1]
    exact ⟨by omega, rfl, rfl, p.readPixel_painted k (y + 1) n hnidx hnlen hn⟩
  · rw [GetIndex_wrap_x, GetIndex_wrap_y]
    exact hidx x

theorem SetPixel_wraps_into_next_row_witness :
    GetIndex display3 (0 + display3.Size) 1 = GetIndex display3 0 (1 + 1) ∧
    SetPixel display3 (display3.Size + 0) 1 7 8 9 = SetPixel display3 0 (1 + 1) 7 8 9 :=
  ⟨(SetPixel_wraps_into_next_row display3 0 1).1,
   ((SetPixel_wraps_into_next_row display3 0 1).2.1 (by decide) (by decide) 0 7 8 9
      (by decide) (by decide) (by decide) (by decide)).2.2.1⟩

/-! ## Invariants of the client -/

theorem store_length (s s1 : List Int) (i v : Int) (h : store s i v = some s1) :
    s1.length = s.length := by
  unfold store at h
  split at h
  · simp only [Option.some.injEq] at h
    rw [← h, List.length_set]
  · simp at h

theorem SetPixel_frame (c : Client) (x y r g b : Int) :
    (SetPixel c x y r g b).1.Address = c.Address ∧
    (SetPixel c x y r g b).1.Size = c.Size ∧
    (SetPixel c x y r g b).1.buffer.length = c.buffer.length := by
  unfold SetPixel
  dsimp only
  split
  · exact ⟨rfl, rfl, rfl⟩
  · rename_i b1 h1
    have l1 := store_length _ _ _ _ h1
    split
    · exact ⟨rfl, rfl, l1⟩
    · rename_i b2 h2
      have l2 := store_length _ _ _ _ h2
      split
      · exact ⟨rfl, rfl, l2.trans l1⟩
      · rename_i b3 h3
        have l3 := store_length _ _ _ _ h3
        exact ⟨rfl, rfl, l3.trans (l2.trans l1)⟩

theorem forEach_frame {α β : Type} (f : Client → β) (body : α → Client → Client × Outcome)
    (hbody : ∀ a c, f (body a c).1 = f c) :
    ∀ (L : List α) (c : Client), f (forEach body L c).1 = f c := by
  intro L
  induction L with
  | nil => intro c; rfl
  | cons a rest ih =>
    intro c
    have h := hbody a c
    unfold forEach
    split
    · rename_i c1 heq
      rw [ih c1, ← h, heq]
    · rename_i c1 o _ heq
      rw [← h, heq]

theorem forEach_frame3 {α : Type} (body : α → Client → Client × Outcome)
    (hbody : ∀ a c, (body a c).1.Address = c.Address ∧ (body a c).1.Size = c.Size ∧
      (body a c).1.buffer.length = c.buffer.length) :
    ∀ (L : List α) (c : Client), (forEach body L c).1.Address = c.Address ∧
      (forEach body L c).1.Size = c.Size ∧
      (forEach body L c).1.buffer.length = c.buffer.length := by
  intro L c
  have h := forEach_frame (fun c1 : Client => (c1.Address, c1.Size, c1.buffer.length)) body
    (fun a c1 => by
      obtain ⟨h1, h2, h3⟩ := hbody a c1
      simp only [h1, h2, h3]) L c
  simp only [Prod.mk.injEq] at h
  exact h

theorem Fill_frame (c : Client) (r g b : Int) :
    (Fill c r g b).1.Address = c.Address ∧ (Fill c r g b).1.Size = c.Size ∧
    (Fill c r g b).1.buffer.length = c.buffer.length := by
  unfold Fill
  apply forEach_frame3
  intro x c1
  apply forEach_frame3
  intro y c2
  exact SetPixel_frame c2 x y r g b

theorem DrawCharacter_frame (chars : Glyphs) (c : Client) (ch : rune) (x y r g b : Int) :
    (DrawCharacter chars c ch x y r g b).1.Address = c.Address ∧
    (DrawCharacter chars c ch x y r g b).1.Size = c.Size ∧
    (DrawCharacter chars c ch x y r g b).1.buffer.length = c.buffer.length := by
  unfold DrawCharacter
  split
  · exact ⟨rfl, rfl, rfl⟩
  · apply forEach_frame3
    intro cell c1
    unfold drawCell
    split
    · exact SetPixel_frame c1 _ _ r g b
    · exact ⟨rfl, rfl, rfl⟩

theorem step_frame (chars : Glyphs) (c : Client) (op : Op) :
    (step chars c op).Address = c.Address ∧ (step chars c op).Size = c.Size ∧
    (step chars c op).buffer.length = c.buffer.length := by
  cases op with
  | setPixel x y r g b => exact SetPixel_frame c x y r g b
  | fill r g b => exact Fill_frame c r g b
  | drawCharacter ch x y r g b => exact DrawCharacter_frame chars c ch x y r g b
  | push w => exact ⟨rfl, rfl, rfl⟩
  | setBrightness n w => exact ⟨rfl, rfl, rfl⟩
  | setPowerStatus s w => exact ⟨rfl, rfl, rfl⟩
  | turnOn w => exact ⟨rfl, rfl, rfl⟩
  | turnOff w => exact ⟨rfl, rfl, rfl⟩
  | reset w => exact ⟨rfl, rfl, rfl⟩

theorem run_frame (chars : Glyphs) :
    ∀ (ops : List Op) (c : Client),
      (run chars c ops).Address = c.Address ∧ (run chars c ops).Size = c.Size ∧
      (run chars c ops).buffer.length = c.buffer.length := by
  intro ops
  induction ops with
  | nil => intro c; exact ⟨rfl, rfl, rfl⟩
  | cons op rest ih =>
    intro c
    obtain ⟨a1, s1, l1⟩ := step_frame chars c op
    obtain ⟨a2, s2, l2⟩ := ih (step chars c op)
    exact ⟨a2.trans a1, s2.trans s1, l2.trans l1⟩

theorem run_reqCounter (chars : Glyphs) :
    ∀ (ops : List Op) (c : Client),
      (run chars c ops).reqCounter = c.reqCounter + (ops.countP Op.isPush : Nat) := by
  intro ops
  induction ops with
  | nil => intro c; simp [run]
  | cons op rest ih =>
    intro c
    have h1 := step_reqCounter chars c op
    have h2 := ih (step chars c op)
    have hrun : run chars c (op :: rest) = run chars (step chars c op) rest := rfl
    rw [hrun, h2, h1, List.countP_cons]
    by_cases hp : op.isPush = true
    · simp only [hp, if_true]
      push_cast
      omega
    · simp only [hp, if_false]
      push_cast
      omega

theorem wrap_length_exact (size : Int) (hfit : 3 * size * size < 2 ^ 63) :
    wrap (wrap (size * size) * 3) = 3 * size * size := by
  have hsq : 0 ≤ size * size := mul_self_nonneg size
  have h3 : 3 * size * size = 3 * (size * size) := by ring
  rw [wrap_of_range (size * size) (by omega) (by omega), wrap_of_range _ (by omega) (by omega)]
  omega

theorem NewClient_length_wrapped (maxLen : Nat) (address : String) (size : Int) (c0 : Client)
    (h0 : NewClient maxLen address size = some c0) :
    (c0.buffer.length : Int) = wrap (wrap (size * size) * 3) := by
  obtain ⟨_, _, _, hb, hn, _⟩ := NewClient_some maxLen address size c0 h0
  rw [hb, List.length_replicate, Int.toNat_of_nonneg hn]

theorem NewClient_length (maxLen : Nat) (address : String) (size : Int) (c0 : Client)
    (h0 : NewClient maxLen address size = some c0) (hfit : 3 * size * size < 2 ^ 63) :
    (c0.buffer.length : Int) = 3 * size * size := by
  rw [NewClient_length_wrapped maxLen address size c0 h0, wrap_length_exact size hfit]

/-- C14 as amended: for every address and every size with `3*size*size < 2^63`
for which `make` can allocate `3*size*size` entries, `NewClient(address, size)`
returns a client with `Address = address`, `Size = size`, a buffer of exactly
`3*size*size` entries, all 0, and `reqCounter = 1`. In general the length asked
of `make` is the 64-bit value of `size*size*3`, and no client is returned when
it is negative or cannot be allocated. -/
theorem NewClient_zeroed (maxLen : Nat) (address : String) (size : Int)
    (hfit : 3 * size * size < 2 ^ 63) (hmem : 3 * size * size ≤ (maxLen : Int)) :
    (∃ c0 : Client, NewClient maxLen address size = some c0 ∧
      c0.Address = address ∧ c0.Size = size ∧
      (c0.buffer.length : Int) = 3 * size * size ∧
      (∀ v ∈ c0.buffer, v = 0) ∧
      c0.buffer = List.replicate (3 * size * size).toNat 0 ∧
      c0.reqCounter = 1) ∧
    (∀ (m : Nat) (s : Int) (c1 : Client), NewClient m address s = some c1 →
      c1.Address = address ∧ c1.Size = s ∧ c1.reqCounter = 1 ∧
      (c1.buffer.length : Int) = wrap (wrap (s * s) * 3) ∧ (∀ v ∈ c1.buffer, v = 0)) ∧
    (∀ (m : Nat) (s : Int),
      (wrap (wrap (s * s) * 3) < 0 ∨ (m : Int) < wrap (wrap (s * s) * 3)) →
      NewClient m address s = none) := by
  have hw := wrap_length_exact size hfit
  have hsq : 0 ≤ 3 * size * size := by nlinarith [mul_self_nonneg size]
  refine ⟨⟨_, NewClient_eq maxLen address size (by omega) (by omega), rfl, rfl, ?_, ?_, ?_, rfl⟩,
    ?_, ?_⟩
  · rw [List.length_replicate, Int.toNat_of_nonneg (by omega), hw]
  · intro v hv
    exact List.eq_of_mem_replicate hv
  · simp only [hw]
  · intro m s c1 h1
    obtain ⟨hA, hS, hq, hb, _, _⟩ := NewClient_some m address s c1 h1
    refine ⟨hA, hS, hq, NewClient_length_wrapped m address s c1 h1, ?_⟩
    intro v hv
    rw [hb] at hv
    exact List.eq_of_mem_replicate hv
  · intro m s h
    unfold NewClient make
    rw [if_neg (by omega)]

theorem NewClient_zeroed_witness :
    ∃ c0 : Client, NewClient 12 "10.0.0.5" 2 = some c0 ∧
      c0.Address = "10.0.0.5" ∧ c0.Size = 2 ∧
      (c0.buffer.length : Int) = 3 * 2 * 2 ∧
      (∀ v ∈ c0.buffer, v = 0) ∧
      c0.buffer = List.replicate (3 * 2 * 2 : Int).toNat 0 ∧
      c0.reqCounter = 1 :=
  (NewClient_zeroed 12 "10.0.0.5" 2 (by decide) (by decide)).1

/-- C14 as stated fails: for `size = 2^32 >= 0` the length `size*size*3` wraps
to 0 and `NewClient` returns a client with an empty buffer, not one of
`3 * 2^64` entries; for `size = 2^31` the length wraps to `-2^62`, `make`
panics and no client is returned, however much memory there is. -/
theorem NewClient_zeroed_counterexample :
    (0 : Int) ≤ 4294967296 ∧
    NewClient 9223372036854775807 "10.0.0.5" 4294967296 =
      some (Client.mk "10.0.0.5" 4294967296 [] 1) ∧
    ((Client.mk "10.0.0.5" 4294967296 [] 1).buffer.length : Int) ≠
      3 * 4294967296 * 4294967296 ∧
    (0 : Int) ≤ 2147483648 ∧
    wrap (wrap ((2147483648 : Int) * 2147483648) * 3) = -4611686018427387904 ∧
    NewClient 9223372036854775807 "10.0.0.5" 2147483648 = none := by
  decide

/-- C15 as amended: `len(buffer) = 3*Size*Size` holds for every client returned
by `NewClient` for a size with `3*size*size < 2^63` and in every state reached
from it by any sequence of calls (for other sizes the length is the 64-bit
value of `size*size*3`); each call (`SetPixel`, `Fill`, `DrawCharacter` with a
known or an unknown character, `Push`, `SetBrightness`, `SetPowerStatus`,
`TurnOn`, `TurnOff`, `Reset`) leaves `Size` and the length of the buffer as they
were, so it preserves the predicate. -/
theorem buffer_length_invariant (chars : Glyphs) (maxLen : Nat) (address : String)
    (size : Int) (c0 : Client) (ops : List Op)
    (h0 : NewClient maxLen address size = some c0) :
    (3 * size * size < 2 ^ 63 →
      (c0.buffer.length : Int) = 3 * c0.Size * c0.Size ∧
      ((run chars c0 ops).buffer.length : Int) =
        3 * (run chars c0 ops).Size * (run chars c0 ops).Size) ∧
    ((c0.buffer.length : Int) = wrap (wrap (c0.Size * c0.Size) * 3) ∧
      ((run chars c0 ops).buffer.length : Int) =
        wrap (wrap ((run chars c0 ops).Size * (run chars c0 ops).Size) * 3)) ∧
    (run chars c0 ops).Size = size ∧
    (run chars c0 ops).buffer.length = c0.buffer.length ∧
    (∀ (c : Client) (op : Op),
      (step chars c op).Size = c.Size ∧
      (step chars c op).buffer.length = c.buffer.length ∧
      ((c.buffer.length : Int) = 3 * c.Size * c.Size →
        ((step chars c op).buffer.length : Int) =
          3 * (step chars c op).Size * (step chars c op).Size)) := by
  obtain ⟨_, hS, hl⟩ := run_frame chars ops c0
  have hS0 : c0.Size = size := (NewClient_some maxLen address size c0 h0).2.1
  have hw := NewClient_length_wrapped maxLen address size c0 h0
  refine ⟨?_, ?_, hS.trans hS0, hl, ?_⟩
  · intro hfit
    have h := NewClient_length maxLen address size c0 h0 hfit
    rw [hS, hl, hS0]
    exact ⟨h, h⟩
  · rw [hS, hl, hS0]
    exact ⟨hw, hw⟩
  · intro c op
    obtain ⟨_, s1, l1⟩ := step_frame chars c op
    refine ⟨s1, l1, ?_⟩
    intro h
    rw [s1, l1]
    exact h

theorem buffer_length_invariant_witness :
    ((run demoChars display3
      [Op.fill 1 2 3, Op.setPixel 0 3 7 8 9, Op.drawCharacter 65 0 0 1 1 1,
       Op.drawCharacter 49 1 0 7 8 9, Op.push Wire.delivered,
       Op.reset (Wire.postError "timeout")]).buffer.length : Int) =
      3 * (run demoChars display3
        [Op.fill 1 2 3, Op.setPixel 0 3 7 8 9, Op.drawCharacter 65 0 0 1 1 1,
         Op.drawCharacter 49 1 0 7 8 9, Op.push Wire.delivered,
         Op.reset (Wire.postError "timeout")]).Size *
        (run demoChars display3
          [Op.fill 1 2 3, Op.setPixel 0 3 7 8 9, Op.drawCharacter 65 0 0 1 1 1,
           Op.drawCharacter 49 1 0 7 8 9, Op.push Wire.delivered,
           Op.reset (Wire.postError "timeout")]).Size :=
  ((buffer_length_invariant demoChars 27 "10.0.0.5" 3 display3
    [Op.fill 1 2 3, Op.setPixel 0 3 7 8 9, Op.drawCharacter 65 0 0 1 1 1,
     Op.drawCharacter 49 1 0 7 8 9, Op.push Wire.delivered,
     Op.reset (Wire.postError "timeout")] (by decide)).1 (by decide)).2

/-- C15 as stated fails: `NewClient("10.0.0.5", 1<<33)` returns a client with
`Size = 2^33` and an empty buffer (the length `size*size*3` wraps to 0), so
`len(buffer) = 0` is not `3*Size*Size = 3 * 2^66`. -/
theorem buffer_length_invariant_counterexample :
    (0 : Int) ≤ 8589934592 ∧
    NewClient 9223372036854775807 "10.0.0.5" 8589934592 =
      some (Client.mk "10.0.0.5" 8589934592 [] 1) ∧
    ((Client.mk "10.0.0.5" 8589934592 [] 1).buffer.length : Int) = 0 ∧
    3 * (Client.mk "10.0.0.5" 8589934592 [] 1).Size *
      (Client.mk "10.0.0.5" 8589934592 [] 1).Size = 221360928884514619392 ∧
    ((Client.mk "10.0.0.5" 8589934592 [] 1).buffer.length : Int) ≠
      3 * (Client.mk "10.0.0.5" 8589934592 [] 1).Size *
        (Client.mk "10.0.0.5" 8589934592 [] 1).Size := by
  decide

/-- C16: in every state reached from `NewClient` by any sequence of calls the
counter is `1 + k`, where `k` is the number of `Push` calls, hence at least 1;
`Push` increases it by exactly 1 and every other call (`SetPixel`, `Fill`,
`DrawCharacter`, `SetBrightness`, `SetPowerStatus`, `TurnOn`, `TurnOff`,
`Reset`) leaves it unchanged, so no call decreases or resets it. `Reset` sends
`Draw/ResetHttpGifId` and keeps the local counter. -/
theorem reqCounter_counts_pushes (chars : Glyphs) (maxLen : Nat) (address : String)
    (size : Int) (c0 : Client) (ops : List Op)
    (h0 : NewClient maxLen address size = some c0) :
    (run chars c0 ops).reqCounter = 1 + (ops.countP Op.isPush : Nat) ∧
    1 ≤ (run chars c0 ops).reqCounter ∧
    (∀ (c : Client) (op : Op),
      (step chars c op).reqCounter = c.reqCounter + (if op.isPush then 1 else 0) ∧
      c.reqCounter ≤ (step chars c op).reqCounter) ∧
    (∀ (c : Client) (w : Wire), (step chars c (Op.push w)).reqCounter = c.reqCounter + 1) ∧
    (∀ (c : Client) (w : Wire), (Reset w c).1.reqCounter = c.reqCounter ∧
      (Reset w c).2.1 = [("Command", Value.str "Draw/ResetHttpGifId")]) := by
  have h := run_reqCounter chars ops c0
  have h1 : c0.reqCounter = 1 := (NewClient_some maxLen address size c0 h0).2.2.1
  refine ⟨by rw [h, h1], by rw [h, h1]; omega, ?_, fun c w => rfl, fun c w => ⟨rfl, rfl⟩⟩
  intro c op
  have hs := step_reqCounter chars c op
  refine ⟨hs, ?_⟩
  rw [hs]
  split <;> omega

theorem reqCounter_counts_pushes_witness :
    (run demoChars display3
      [Op.push Wire.delivered, Op.fill 1 2 3, Op.reset Wire.delivered,
       Op.push (Wire.postError "timeout"), Op.turnOff Wire.delivered,
       Op.setPixel 0 3 7 8 9]).reqCounter = 1 + (2 : Nat) :=
  (reqCounter_counts_pushes demoChars 27 "10.0.0.5" 3 display3
    [Op.push Wire.delivered, Op.fill 1 2 3, Op.reset Wire.delivered,
     Op.push (Wire.postError "timeout"), Op.turnOff Wire.delivered,
     Op.setPixel 0 3 7 8 9] (by decide)).1

/-! ## Shape of the payload -/

theorem sextetChar_mem (m : Nat) : sextetChar m ∈ encodeStd := by
  by_cases h : m < 64
  · have key : ∀ n < 64, sextetChar n ∈ encodeStd := by decide
    exact key m h
  · have hlen : encodeStd.length = 64 := by decide
    have : sextetChar m = 'A' := by
      unfold sextetChar
      rw [List.getD_eq_getElem?_getD, List.getElem?_eq_none (by omega)]
      rfl
    rw [this]
    decide

theorem pad_not_mem : '=' ∉ encodeStd := by decide

theorem encodeChars_triples :
    ∀ (n : Nat) (bs : List Nat), bs.length = 3 * n →
      (encodeChars bs).length = 4 * n ∧ ∀ ch ∈ encodeChars bs, ch ∈ encodeStd := by
  intro n
  induction n with
  | zero =>
    intro bs h
    have : bs = [] := List.length_eq_zero.1 (by omega)
    subst this
    exact ⟨rfl, fun ch h => by simp [encodeChars] at h⟩
  | succ n ih =>
    intro bs h
    match bs, h with
    | a :: b :: c :: rest, h =>
      have hr : rest.length = 3 * n := by
        simp only [List.length_cons] at h
        omega
      obtain ⟨l, m⟩ := ih rest hr
      constructor
      · simp only [encodeChars, List.length_cons, l]
        omega
      · intro ch hch
        simp only [encodeChars, List.mem_cons] at hch
        rcases hch with h | h | h | h | h
        · rw [h]; exact sextetChar_mem _
        · rw [h]; exact sextetChar_mem _
        · rw [h]; exact sextetChar_mem _
        · rw [h]; exact sextetChar_mem _
        · exact m ch h

/-- C18: on a client with `len(buffer) = 3*Size*Size`, the `PicData` string built
by `Push` has exactly `4*Size*Size` characters, each of them one of the 64
characters `A-Z`, `a-z`, `0-9`, `+`, `/` of the standard alphabet, and none of
them the padding character `=`. -/
theorem Push_PicData_shape (w : Wire) (c : Client)
    (hlen : (c.buffer.length : Int) = 3 * c.Size * c.Size) :
    ∃ s : String, (Push w c).2.1.field "PicData" = some (Value.str s) ∧
      (s.length : Int) = 4 * c.Size * c.Size ∧
      (∀ ch ∈ s.toList, ch ∈ encodeStd ∧ ch ≠ '=') ∧
      encodeStd =
        "ABCDEFGHIJKLMNOPQRSTUVWXYZabcdefghijklmnopqrstuvwxyz0123456789+/".toList ∧
      encodeStd.length = 64 := by
  have hsq : 0 ≤ c.Size * c.Size := mul_self_nonneg c.Size
  have h3 : 3 * c.Size * c.Size = 3 * (c.Size * c.Size) := by ring
  have h4 : 4 * c.Size * c.Size = 4 * (c.Size * c.Size) := by ring
  obtain ⟨l, m⟩ := encodeChars_triples (c.Size * c.Size).toNat (c.buffer.map byte)
    (by rw [List.length_map]; omega)
  refine ⟨EncodeToString (c.buffer.map byte), rfl, ?_, ?_, rfl, by decide⟩
  · have : (EncodeToString (c.buffer.map byte)).length = (encodeChars (c.buffer.map byte)).length :=
      rfl
    rw [this, l]
    omega
  · intro ch hch
    have hmem : ch ∈ encodeStd := m ch hch
    refine ⟨hmem, ?_⟩
    rintro rfl
    exact pad_not_mem hmem

theorem Push_PicData_shape_witness :
    ∃ s : String,
      (Push Wire.delivered display2).2.1.field "PicData" = some (Value.str s) ∧
      (s.length : Int) = 4 * display2.Size * display2.Size ∧
      (∀ ch ∈ s.toList, ch ∈ encodeStd ∧ ch ≠ '=') ∧
      encodeStd =
        "ABCDEFGHIJKLMNOPQRSTUVWXYZabcdefghijklmnopqrstuvwxyz0123456789+/".toList ∧
      encodeStd.length = 64 :=
  Push_PicData_shape Wire.delivered display2 (by decide)

/-- C19: whatever the transport did, `Push` leaves the buffer, `Size` and
`Address` unchanged; hence two consecutive `Push` calls with no drawing call in
between build bodies that agree on every field other than `PicID` (`Command`,
`PicNum`, `PicWidth`, `PicOffset`, `PicSpeed`, `PicData`), while the second
`PicID` is the first plus 1. -/
theorem Push_reads_only (w1 w2 : Wire) (c : Client) :
    (Push w1 c).1.buffer = c.buffer ∧ (Push w1 c).1.Size = c.Size ∧
    (Push w1 c).1.Address = c.Address ∧
    (∀ key : String, key ≠ "PicID" →
      (Push w2 (Push w1 c).1).2.1.field key = (Push w1 c).2.1.field key) ∧
    (Push w1 c).2.1.field "PicID" = some (Value.int c.reqCounter) ∧
    (Push w2 (Push w1 c).1).2.1.field "PicID" = some (Value.int (c.reqCounter + 1)) ∧
    (Push w2 (Push w1 c).1).2.1.map Prod.fst = (Push w1 c).2.1.map Prod.fst ∧
    (Push w1 c).2.1.map Prod.fst =
      ["Command", "PicNum", "PicWidth", "PicOffset", "PicID", "PicSpeed", "PicData"] := by
  refine ⟨rfl, rfl, rfl, ?_, Push_PicID w1 c, Push_PicID w2 (Push w1 c).1, rfl, rfl⟩
  intro key hkey
  simp only [Push, Body.field, List.find?]
  by_cases h1 : ("Command" == key) = true
  · simp only [h1]
  · simp only [h1]
    by_cases h2 : ("PicNum" == key) = true
    · simp only [h2]
    · simp only [h2]
      by_cases h3 : ("PicWidth" == key) = true
      · simp only [h3]
      · simp only [h3]
        by_cases h4 : ("PicOffset" == key) = true
        · simp only [h4]
        · simp only [h4]
          have h5 : ("PicID" == key) = false := by
            simp only [beq_eq_false_iff_ne, ne_eq]
            exact fun h => hkey h.symm
          simp only [h5]

theorem Push_reads_only_witness :
    (Push Wire.delivered (Push (Wire.postError "timeout") display2).1).2.1.field
        "PicData" =
      (Push (Wire.postError "timeout") display2).2.1.field "PicData" ∧
    (Push Wire.delivered (Push (Wire.postError "timeout") display2).1).2.1.field
        "PicID" = some (Value.int (display2.reqCounter + 1)) :=
  ⟨(Push_reads_only (Wire.postError "timeout") Wire.delivered display2).2.2.2.1
      "PicData" (by decide),
   (Push_reads_only (Wire.postError "timeout") Wire.delivered
      display2).2.2.2.2.2.1⟩

end Pixgo
